import Mathlib

/-!
Verification of the openshare ephemeral file-relay server.

The core implementation (the enhanced server with user sessions) is embedded
shallowly: byte buffers become `List Nat`, the multipart parser becomes a
pure function, and the mutable in-memory stores (`fileDatabase`,
`userSessions`, the uploads directory) become an explicit `ServerState`
record threaded through pure transition functions.  The only I/O failure
representable in the model is a missing file on disk, which is exactly the
failure mode the code guards for with `existsSync`.
-/

set_option autoImplicit false

namespace OpenShare

/-! ## Byte-buffer scanning utilities (Buffer.indexOf, Buffer.slice, includes) -/

/-- The pattern `pat` occurs in `l` starting at byte offset `i`. -/
def occursAt (pat l : List Nat) (i : Nat) : Prop :=
  pat <+: l.drop i

instance (pat l : List Nat) (i : Nat) : Decidable (occursAt pat l i) := by
  unfold occursAt
  infer_instance

/-- Index of the first occurrence of `pat` in `l`, as `Buffer.indexOf` computes
it (with `none` in place of `-1`). -/
def idxOf? (pat : List Nat) : List Nat → Option Nat
  | [] => if pat = [] then some 0 else none
  | a :: l => if pat.isPrefixOf (a :: l) then some 0 else (idxOf? pat l).map (· + 1)

/-- `Buffer.indexOf(pat, start)`: first occurrence of `pat` in `l` at offset
at least `start`. -/
def idxFrom (pat l : List Nat) (start : Nat) : Option Nat :=
  (idxOf? pat (l.drop start)).map (· + start)

/-- `Buffer.slice(start, end)` with the clamping JS performs. -/
def sliceJs (l : List Nat) (s e : Nat) : List Nat :=
  (l.drop s).take (e - s)

/-- `buffer.includes(pat)`. -/
def containsPat (pat l : List Nat) : Bool :=
  (idxOf? pat l).isSome

/-- The loop of `parseMultipartFormData` that records the byte offsets of
every occurrence of the boundary delimiter; fuel bounds the recursion, and
`l.length + 1` steps always suffice for a nonempty delimiter. -/
def findAllAux (bb l : List Nat) (pos : Nat) : Nat → List Nat
  | 0 => []
  | fuel + 1 =>
    match idxFrom bb l pos with
    | none => []
    | some index => index :: findAllAux bb l (index + bb.length) fuel

/-- All boundary-delimiter offsets in the buffer, in order. -/
def findAll (bb l : List Nat) : List Nat :=
  findAllAux bb l 0 (l.length + 1)

/-! ## The multipart extractor of the core server (parseMultipartFormData)

Byte constants: 13 = CR, 10 = LF, 34 = double quote, 45 = dash.
Header text is matched at byte level; this coincides with the `toString`
plus regex matching of the source for ASCII header blocks. -/

/-- Byte codes of a string of ASCII characters. -/
def strBytes (s : String) : List Nat :=
  s.data.map Char.toNat

/-- The bytes of the literal `filename=` marker. -/
def filenameMarker : List Nat := strBytes "filename="

/-- The bytes of the literal `filename="` that the filename regex scans for. -/
def filenameQuoteLit : List Nat := filenameMarker ++ [34]

/-- The `\r\n\r\n` header terminator. -/
def headerEndMarker : List Nat := [13, 10, 13, 10]

/-- Attempt of the regex `filename="([^"]+)"` at the current offset: after the
literal `filename="`, the greedy `[^"]+` capture succeeds exactly when the
next byte is not a quote and a closing quote follows later. -/
def filenameCaptureAt (t : List Nat) : Option (List Nat) :=
  let cap := t.takeWhile (fun c => ¬ c = 34)
  if 0 < cap.length ∧ cap.length < t.length then some cap else none

/-- The regex `filename="([^"]+)"` applied to the header block: scan left to
right, and at each position where the literal `filename="` matches try the
capture, moving on otherwise. -/
def matchFilename : List Nat → Option (List Nat)
  | [] => none
  | c :: rest =>
    if filenameQuoteLit.isPrefixOf (c :: rest) then
      match filenameCaptureAt ((c :: rest).drop filenameQuoteLit.length) with
      | some cap => some cap
      | none => matchFilename rest
    else matchFilename rest

/-- Result record of `parseMultipartFormData`. -/
structure ParseResult where
  fileName : Option (List Nat)
  fileContent : Option (List Nat)
  deriving DecidableEq, Repr

/-- One iteration of the part loop: a part is honored when it contains the
`filename=` marker, its header block terminates with `\r\n\r\n`, and the
quoted-filename pattern matches in the header; the payload is the slice
between the header terminator and the CRLF preceding the next boundary. -/
def extractFromPart (part : List Nat) : Option (List Nat × List Nat) :=
  if containsPat filenameMarker part then
    match idxOf? headerEndMarker part with
    | none => none
    | some headerEndPos =>
      match matchFilename (part.take headerEndPos) with
      | none => none
      | some name =>
        some (name, sliceJs part (headerEndPos + headerEndMarker.length) (part.length - 2))
  else none

/-- The part loop of `parseMultipartFormData`: honor the first part that
extracts successfully and break; skip the rest. -/
def scanParts : List (List Nat) → ParseResult
  | [] => ⟨none, none⟩
  | p :: rest =>
    match extractFromPart p with
    | some (name, content) => ⟨some name, some content⟩
    | none => scanParts rest

/-- The bounded segments between consecutive boundary offsets. -/
def partsOf (bb buffer : List Nat) : List (List Nat) :=
  ((findAll bb buffer).zip (findAll bb buffer).tail).map
    (fun pq => sliceJs buffer (pq.1 + bb.length) pq.2)

/-- `parseMultipartFormData(buffer, boundary)` of the core server: binary-safe
offset scanning over the raw byte buffer. -/
def parseMultipartFormData (buffer boundary : List Nat) : ParseResult :=
  scanParts (partsOf ([45, 45] ++ boundary) buffer)

/-! ## Canonical well-formed multipart bodies

`mkBody b name C` is a well-formed multipart body with boundary `b` whose
single part declares the file name `name` and carries the payload `C`. -/

/-- The header line of the file part, up to the opening quote of the
filename parameter. -/
def hdrStem : List Nat := strBytes "Content-Disposition: form-data; name=\"file\"; "

/-- The full header line of the file part. -/
def hdrPre : List Nat := hdrStem ++ filenameQuoteLit

/-- The bounded segment between the two boundary delimiters: the CRLF ending
the boundary line, the header line naming the file, the blank-line header
terminator, the raw payload, and the CRLF preceding the closing delimiter. -/
def mkPart (name C : List Nat) : List Nat :=
  [13, 10] ++ (hdrPre ++ name ++ [34]) ++ headerEndMarker ++ C ++ [13, 10]

/-- A complete multipart body: opening delimiter, the file part, and the
closing delimiter `--b--` with a trailing CRLF. -/
def mkBody (b name C : List Nat) : List Nat :=
  ([45, 45] ++ b) ++ mkPart name C ++ ([45, 45] ++ b) ++ [45, 45, 13, 10]

/-! ## Boundary extraction from the content-type header

The upload handler matches the content-type header (a string, modelled as a
character list) against the case-insensitive regex
`boundary=(?:"([^"]+)"|([^;]+))`, trying the quoted alternative first at
each position and advancing one character when both alternatives fail. -/

/-- The literal `boundary=` of the regex, lowercase. -/
def boundaryLit : List Char := "boundary=".data

/-- Case-insensitive match of a lowercase literal at the head of `s`. -/
def ciPrefix : List Char → List Char → Bool
  | [], _ => true
  | _ :: _, [] => false
  | p :: ps, c :: cs => decide (c.toLower = p) && ciPrefix ps cs

/-- The quoted alternative of the regex: a double quote, a greedy nonempty run
of non-quote characters, and a closing double quote. -/
def tryQuoted (t : List Char) : Option (List Char) :=
  match t with
  | [] => none
  | c :: rest =>
    if c = '"' then
      let cap := rest.takeWhile (fun d => decide (¬ d = '"'))
      if 0 < cap.length ∧ cap.length < rest.length then some cap else none
    else none

/-- The unquoted alternative of the regex: a greedy nonempty run of
non-semicolon characters. -/
def tryUnquoted (t : List Char) : Option (List Char) :=
  let cap := t.takeWhile (fun d => decide (¬ d = ';'))
  if 0 < cap.length then some cap else none

/-- A single attempt of the boundary regex at the current offset. -/
def tryBoundaryAt (s : List Char) : Option (List Char) :=
  if ciPrefix boundaryLit s then
    let t := s.drop boundaryLit.length
    match tryQuoted t with
    | some b => some b
    | none => tryUnquoted t
  else none

/-- The boundary regex applied to the whole content-type header: scan left to
right, returning the first successful capture group. -/
def matchBoundaryParam : List Char → Option (List Char)
  | [] => none
  | c :: rest =>
    match tryBoundaryAt (c :: rest) with
    | some b => some b
    | none => matchBoundaryParam rest

/-- Whether the content-type header contains the literal `boundary=` at any
position, case-insensitively: the presence of a boundary parameter in the
sense of the specification. -/
def hasBoundaryLit : List Char → Bool
  | [] => false
  | c :: rest => ciPrefix boundaryLit (c :: rest) || hasBoundaryLit rest

/-! ## MIME table, path.extname, getContentType -/

/-- Suffix of the list starting at its last occurrence of a dot (byte 46),
or empty when the list has no dot. -/
def lastDotSuffix : List Nat → List Nat
  | [] => []
  | c :: rest =>
    let s := lastDotSuffix rest
    if s = [] then (if c = 46 then c :: rest else []) else s

/-- `path.extname`: the suffix from the last dot, where a dot that is the
first character marks a hidden file and yields no extension. -/
def extname (name : List Nat) : List Nat :=
  match name with
  | [] => []
  | _ :: rest => lastDotSuffix rest

/-- ASCII lowercasing of a byte list, as `toLowerCase` acts on extensions. -/
def toLowerBytes (l : List Nat) : List Nat :=
  l.map (fun c => if 65 ≤ c ∧ c ≤ 90 then c + 32 else c)

/-- The MIME_TYPES table of the server. -/
def mimeTypes : List (List Nat × String) :=
  [ (strBytes ".html", "text/html"),
    (strBytes ".css", "text/css"),
    (strBytes ".js", "text/javascript"),
    (strBytes ".json", "application/json"),
    (strBytes ".png", "image/png"),
    (strBytes ".jpg", "image/jpeg"),
    (strBytes ".jpeg", "image/jpeg"),
    (strBytes ".gif", "image/gif"),
    (strBytes ".svg", "image/svg+xml"),
    (strBytes ".ico", "image/x-icon"),
    (strBytes ".txt", "text/plain"),
    (strBytes ".pdf", "application/pdf"),
    (strBytes ".zip", "application/zip"),
    (strBytes ".mp4", "video/mp4"),
    (strBytes ".mp3", "audio/mpeg") ]

/-! ## Association-list primitives standing for JS object operations -/

/-- First value bound to `k`, as property lookup on a JS object. -/
def lookupA {κ α : Type} [DecidableEq κ] (k : κ) : List (κ × α) → Option α
  | [] => none
  | e :: t => if e.1 = k then some e.2 else lookupA k t

/-- Property assignment on a JS object: replace in place when the key exists,
append otherwise. -/
def putA {κ α : Type} [DecidableEq κ] (k : κ) (v : α) : List (κ × α) → List (κ × α)
  | [] => [(k, v)]
  | e :: t => if e.1 = k then (k, v) :: t else e :: putA k v t

/-- The `delete` operator on a JS object. -/
def eraseA {κ α : Type} [DecidableEq κ] (k : κ) (l : List (κ × α)) : List (κ × α) :=
  l.filter (fun e => decide (¬ e.1 = k))

/-- In-place update of the value bound to `k`, leaving other bindings alone. -/
def adjustA {κ α : Type} [DecidableEq κ] (k : κ) (f : α → α) (l : List (κ × α)) : List (κ × α) :=
  l.map (fun e => if e.1 = k then (e.1, f e.2) else e)

/-- `getContentType`: MIME type from the lowercased extension, with the
octet-stream default. -/
def getContentType (filePath : List Nat) : String :=
  match lookupA (toLowerBytes (extname filePath)) mimeTypes with
  | some t => t
  | none => "application/octet-stream"

/-! ## The server state and its transitions -/

/-- Metadata record stored in `fileDatabase`. -/
structure FileRecord where
  originalName : List Nat
  filename : List Nat
  size : Nat
  uploadTime : Nat
  expiryTime : Nat
  downloaded : Bool
  sessionId : Option String
  deriving DecidableEq, Repr

/-- Record stored in `userSessions`. -/
structure SessionRecord where
  created : Nat
  files : List String
  deriving DecidableEq, Repr

/-- The mutable state of the process: the two in-memory stores plus the
uploads directory, a map from storage filename to stored bytes. -/
structure ServerState where
  fileDatabase : List (String × FileRecord)
  userSessions : List (String × SessionRecord)
  disk : List (List Nat × List Nat)
  deriving DecidableEq, Repr

/-- 4 hours in milliseconds. -/
def FILE_EXPIRY : Nat := 4 * 60 * 60 * 1000

/-- 24 hours in milliseconds, the session staleness window. -/
def SESSION_STALE : Nat := 24 * 60 * 60 * 1000

/-- The server-generated storage filename: file ID plus the original
extension. -/
def storageFilename (fid : String) (fileName : List Nat) : List Nat :=
  strBytes fid ++ extname fileName

/-- `createSession`: install a fresh empty session record. -/
def createSessionApply (st : ServerState) (sid : String) (now : Nat) : ServerState :=
  { st with userSessions := putA sid ⟨now, []⟩ st.userSessions }

/-- The success path of the upload handler: write the bytes to disk, insert
the FileRecord, and append the file ID to the owning session. -/
def uploadApply (st : ServerState) (sid fid : String) (fileName fileContent : List Nat)
    (now : Nat) : ServerState :=
  let key := storageFilename fid fileName
  { fileDatabase :=
      putA fid
        ⟨fileName, key, fileContent.length, now, now + FILE_EXPIRY, false, some sid⟩
        st.fileDatabase,
    userSessions := adjustA sid (fun s => ⟨s.created, s.files ++ [fid]⟩) st.userSessions,
    disk := putA key fileContent st.disk }

/-- Responses of the upload endpoint. -/
inductive UploadResp where
  /-- 400, body says invalid content type or missing boundary. -/
  | invalidBoundary
  /-- 400, body says no file uploaded or invalid file data. -/
  | noFile
  /-- 200 with the file ID, the download link filename, and the expiry time. -/
  | ok (fileId : String) (downloadLink : List Nat) (expiryTime : Nat)
  deriving DecidableEq, Repr

/-- HTTP status code of an upload response. -/
def UploadResp.status : UploadResp → Nat
  | .invalidBoundary => 400
  | .noFile => 400
  | .ok _ _ _ => 200

/-- The body-complete portion of the upload handler: extract the boundary
from the content-type header, parse the multipart body, reject when no file
name or no file content was found (an empty string file name is falsy, an
empty byte buffer is not), and otherwise store the file. -/
def uploadHandler (st : ServerState) (contentType : Option (List Char)) (body : List Nat)
    (sid fid : String) (now : Nat) : UploadResp × ServerState :=
  match matchBoundaryParam (contentType.getD []) with
  | none => (UploadResp.invalidBoundary, st)
  | some b =>
    match (parseMultipartFormData body (b.map Char.toNat)).fileName with
    | none => (UploadResp.noFile, st)
    | some name =>
      if name = [] then (UploadResp.noFile, st)
      else
        match (parseMultipartFormData body (b.map Char.toNat)).fileContent with
        | none => (UploadResp.noFile, st)
        | some content =>
          (UploadResp.ok fid (storageFilename fid name) (now + FILE_EXPIRY),
           uploadApply st sid fid name content now)

/-- One row of the `/api/files` response. -/
structure FileEntry where
  id : String
  originalName : List Nat
  size : Nat
  uploadTime : Nat
  expiryTime : Nat
  downloadLink : List Nat
  deriving DecidableEq, Repr

/-- The `/api/files` handler: the session's file IDs, with IDs whose record
has already been removed filtered out, mapped to listing entries. -/
def apiFiles (st : ServerState) (sid : String) : List FileEntry :=
  match lookupA sid st.userSessions with
  | none => []
  | some rec =>
    rec.files.filterMap (fun fid =>
      (lookupA fid st.fileDatabase).map (fun md =>
        ⟨fid, md.originalName, md.size, md.uploadTime, md.expiryTime, md.filename⟩))

/-- Responses of the download endpoint. -/
inductive DownloadResp where
  /-- 404, body says file not found or expired. -/
  | notFoundOrExpired
  /-- 200 attachment stream with the original name, content type, and bytes. -/
  | stream (originalName : List Nat) (contentType : String) (bytes : List Nat)
  deriving DecidableEq, Repr

/-- The download handler up to streaming: 404 unless both the physical bytes
and the metadata exist, and on success mark the record downloaded and stream
the stored bytes under the original name. -/
def downloadRequest (st : ServerState) (filename : List Nat) (fid : String) :
    DownloadResp × ServerState :=
  match lookupA filename st.disk, lookupA fid st.fileDatabase with
  | some bytes, some md =>
    (DownloadResp.stream md.originalName (getContentType filename) bytes,
     { st with
        fileDatabase := adjustA fid (fun r => { r with downloaded := true }) st.fileDatabase })
  | _, _ => (DownloadResp.notFoundOrExpired, st)

/-- The `res.on(finish)` callback of the download handler: `unlinkSync` runs
first and throws when the file is already gone, in which case the catch block
swallows the error and neither the session detach nor the metadata delete
runs; when the record is gone reading its session ID throws after the unlink
already succeeded. -/
def downloadFinish (st : ServerState) (filename : List Nat) (fid : String) : ServerState :=
  if (lookupA filename st.disk).isSome then
    let st1 := { st with disk := eraseA filename st.disk }
    match lookupA fid st1.fileDatabase with
    | some md =>
      let sessions1 :=
        match md.sessionId with
        | some sid =>
          if (lookupA sid st1.userSessions).isSome then
            adjustA sid (fun s => ⟨s.created, s.files.filter (fun i => decide (¬ i = fid))⟩)
              st1.userSessions
          else st1.userSessions
        | none => st1.userSessions
      { fileDatabase := eraseA fid st1.fileDatabase, userSessions := sessions1,
        disk := st1.disk }
    | none => st1
  else st

/-- One iteration of the per-file deletion loop of `/api/reset-session`: when
the record exists, delete the physical bytes (the unlink is guarded by
`existsSync`, so a missing file does not stop the metadata delete) and remove
the record. -/
def resetFileStep (acc : ServerState) (fid : String) : ServerState :=
  match lookupA fid acc.fileDatabase with
  | some md =>
    { acc with
        disk := eraseA md.filename acc.disk,
        fileDatabase := eraseA fid acc.fileDatabase }
  | none => acc

/-- The `/api/reset-session` handler: best-effort deletion of every owned
file (the unlink is guarded by `existsSync`, so a missing physical file does
not stop the metadata delete), removal of the session record, and creation of
a replacement session. -/
def resetSession (st : ServerState) (sid newSid : String) (now : Nat) : ServerState :=
  match lookupA sid st.userSessions with
  | some rec =>
    { fileDatabase := (rec.files.foldl resetFileStep st).fileDatabase,
      userSessions :=
        putA newSid ⟨now, []⟩ (eraseA sid (rec.files.foldl resetFileStep st).userSessions),
      disk := (rec.files.foldl resetFileStep st).disk }
  | none => { st with userSessions := putA newSid ⟨now, []⟩ st.userSessions }

/-- One iteration of the expired-file sweep over a database entry: when the
expiry timestamp has passed, delete the physical bytes (tolerating an absent
file), remove the record, and detach the file from its owning session when
that session still exists. -/
def fileSweepStep (now : Nat) (st : ServerState) (e : String × FileRecord) : ServerState :=
  if now > e.2.expiryTime then
    match e.2.sessionId with
    | some sid =>
      if (lookupA sid st.userSessions).isSome then
        { fileDatabase := eraseA e.1 st.fileDatabase,
          userSessions :=
            adjustA sid (fun s => ⟨s.created, s.files.filter (fun i => decide (¬ i = e.1))⟩)
              st.userSessions,
          disk := eraseA e.2.filename st.disk }
      else
        { fileDatabase := eraseA e.1 st.fileDatabase,
          userSessions := st.userSessions,
          disk := eraseA e.2.filename st.disk }
    | none =>
      { fileDatabase := eraseA e.1 st.fileDatabase,
        userSessions := st.userSessions,
        disk := eraseA e.2.filename st.disk }
  else st

/-- The file half of a sweep cycle: iterate over a snapshot of the database
entries. -/
def fileSweep (now : Nat) (st : ServerState) : ServerState :=
  st.fileDatabase.foldl (fileSweepStep now) st

/-- The session half of a sweep cycle: drop every session older than the
staleness window whose file list is empty. -/
def sessionSweep (now : Nat) (st : ServerState) : ServerState :=
  { st with
      userSessions :=
        st.userSessions.filter (fun e =>
          decide (¬ (now - e.2.created > SESSION_STALE ∧ e.2.files.length = 0))) }

/-- One cycle of the `setInterval` sweeper: the file sweep runs entirely
before the session sweep. -/
def sweep (now : Nat) (st : ServerState) : ServerState :=
  sessionSweep now (fileSweep now st)

/-- The effect of one `fileSweepStep` on the session store alone, used to
characterise the file sweep: an expired entry owned by a live session has its
ID filtered out of that session's file list. -/
def sessionEffect (now : Nat) (e : String × FileRecord)
    (S : List (String × SessionRecord)) : List (String × SessionRecord) :=
  if now > e.2.expiryTime then
    match e.2.sessionId with
    | some sid =>
      if (lookupA sid S).isSome then
        adjustA sid (fun s => ⟨s.created, s.files.filter (fun i => decide (¬ i = e.1))⟩) S
      else S
    | none => S
  else S

/-- Whether the file ID `i` owned by session `sid` survives the file sweep
over the database snapshot `entries`: no expired entry with this ID owned by
this session occurs among them. -/
def survivesF (now : Nat) (entries : List (String × FileRecord)) (sid i : String) : Bool :=
  entries.all (fun e =>
    !(decide (i = e.1) && decide (now > e.2.expiryTime) && decide (e.2.sessionId = some sid)))

/-! ## Reachable server states

The file and session identifiers the server draws are 16- and 32-byte
random hex tokens; per the specification these are collision-resistant and
collisions are treated as negligible, so the transition relation takes the
generated identifier as an input assumed fresh: an upload uses a file ID
that is neither a database key nor referenced by any session, and session
creation and reset install session IDs not currently in use. -/

/-- One observable transition of the server process. -/
inductive Step : ServerState → ServerState → Prop where
  /-- A request without a valid session cookie creates a fresh session. -/
  | createSession (st : ServerState) (sid : String) (now : Nat)
      (hfresh : lookupA sid st.userSessions = none) :
      Step st (createSessionApply st sid now)
  /-- A POST to the upload endpoint, with a freshly generated file ID. -/
  | upload (st : ServerState) (ct : Option (List Char)) (body : List Nat)
      (sid fid : String) (now : Nat)
      (hsess : (lookupA sid st.userSessions).isSome = true)
      (hdb : lookupA fid st.fileDatabase = none)
      (hnotowned : ∀ s ∈ st.userSessions, fid ∉ s.2.files) :
      Step st (uploadHandler st ct body sid fid now).2
  /-- A GET on a download link. -/
  | download (st : ServerState) (filename : List Nat) (fid : String) :
      Step st (downloadRequest st filename fid).2
  /-- The finish event of a download response. -/
  | finish (st : ServerState) (filename : List Nat) (fid : String) :
      Step st (downloadFinish st filename fid)
  /-- A POST to the reset-session endpoint, with a fresh replacement ID. -/
  | reset (st : ServerState) (sid newSid : String) (now : Nat)
      (hfresh : lookupA newSid st.userSessions = none) :
      Step st (resetSession st sid newSid now)
  /-- One cycle of the background sweeper. -/
  | sweepCycle (st : ServerState) (now : Nat) :
      Step st (sweep now st)

/-- States reachable from the empty initial state. -/
inductive Reachable : ServerState → Prop where
  | init : Reachable ⟨[], [], []⟩
  | step (st st2 : ServerState) (h1 : Reachable st) (h2 : Step st st2) : Reachable st2

/-- Every file ID held in a session's list refers, whenever its record is
still present, to a record owned by that session. -/
def OwnedBySession (st : ServerState) : Prop :=
  ∀ sid srec, lookupA sid st.userSessions = some srec →
    ∀ fid ∈ srec.files, ∀ md, lookupA fid st.fileDatabase = some md →
      md.sessionId = some sid

/-- Distinct session keys (JS object keys are unique) plus the ownership
invariant. -/
def GoodState (st : ServerState) : Prop :=
  (st.userSessions.map Prod.fst).Nodup ∧ OwnedBySession st

/-! ## Equality of states up to the downloaded flag -/

/-- All fields of a FileRecord except the downloaded flag. -/
def recCore (r : FileRecord) : List Nat × List Nat × Nat × Nat × Nat × Option String :=
  (r.originalName, r.filename, r.size, r.uploadTime, r.expiryTime, r.sessionId)

/-- Two databases agree except possibly in downloaded flags. -/
def EqDb : List (String × FileRecord) → List (String × FileRecord) → Prop
  | [], [] => True
  | a :: as, b :: bs => a.1 = b.1 ∧ recCore a.2 = recCore b.2 ∧ EqDb as bs
  | _, _ => False

/-- Two states agree except possibly in downloaded flags. -/
def EqSt (s t : ServerState) : Prop :=
  EqDb s.fileDatabase t.fileDatabase ∧ s.userSessions = t.userSessions ∧ s.disk = t.disk

/-- Every operation of the server treats two flag-equivalent states
identically: equal responses, and successor states again flag-equivalent. -/
def OpsAgree (s t : ServerState) : Prop :=
  (∀ ct body sid fid now,
    (uploadHandler s ct body sid fid now).1 = (uploadHandler t ct body sid fid now).1 ∧
    EqSt (uploadHandler s ct body sid fid now).2 (uploadHandler t ct body sid fid now).2) ∧
  (∀ sid, apiFiles s sid = apiFiles t sid) ∧
  (∀ filename fid,
    (downloadRequest s filename fid).1 = (downloadRequest t filename fid).1 ∧
    EqSt (downloadRequest s filename fid).2 (downloadRequest t filename fid).2) ∧
  (∀ filename fid, EqSt (downloadFinish s filename fid) (downloadFinish t filename fid)) ∧
  (∀ sid newSid now, EqSt (resetSession s sid newSid now) (resetSession t sid newSid now)) ∧
  (∀ now, EqSt (sweep now s) (sweep now t))

/-- The record of `demoStC2` with its downloaded flag set. -/
def demoRecordFT : FileRecord :=
  ⟨strBytes "a.txt", strBytes "F.txt", 2, 0, 100, true, some "S"⟩

/-- `demoStC2` with the downloaded flag of its one record flipped. -/
def demoStC10 : ServerState :=
  ⟨[("F", demoRecordFT)], [("S", ⟨0, ["F"]⟩)], [(strBytes "F.txt", [1, 2])]⟩

/-- A content-type header declaring boundary `XY`. -/
def demoCt : List Char := "multipart/form-data; boundary=XY".data

/-- A well-formed one-byte upload body with boundary `XY`. -/
def demoBody : List Nat := mkBody (strBytes "XY") (strBytes "a.txt") [7]

/-- A state reached by creating sessions A and B and uploading one file
under session A. -/
def demoReach : ServerState :=
  (uploadHandler (createSessionApply (createSessionApply ⟨[], [], []⟩ "A" 0) "B" 0)
    (some demoCt) demoBody "A" "F" 7).2

/-! ## Concrete demonstration values -/

/-- A record as stored for a one-byte text file owned by session A. -/
def demoRecordA : FileRecord :=
  ⟨strBytes "a.txt", strBytes "k1.txt", 1, 0, 100, false, some "A"⟩

/-- A record as stored for a two-byte text file owned by session B. -/
def demoRecordB : FileRecord :=
  ⟨strBytes "b.txt", strBytes "k2.txt", 2, 5, 105, false, some "B"⟩

/-- A record whose physical bytes are missing from the disk. -/
def demoRecordK : FileRecord :=
  ⟨strBytes "k.txt", strBytes "kk.txt", 2, 0, 100, false, some "A"⟩

/-- A state with one file record and one owning session but no stored
bytes on disk. -/
def demoStC8 : ServerState :=
  ⟨[("kk", demoRecordK)], [("A", ⟨0, ["kk"]⟩)], []⟩

/-- A record whose bytes are present on disk, owned by session S. -/
def demoRecordF : FileRecord :=
  ⟨strBytes "a.txt", strBytes "F.txt", 2, 0, 100, false, some "S"⟩

/-- A state with one stored file, its owning session, and its disk bytes. -/
def demoStC2 : ServerState :=
  ⟨[("F", demoRecordF)], [("S", ⟨0, ["F"]⟩)], [(strBytes "F.txt", [1, 2])]⟩

/-- An expired record owned by session A. -/
def demoRecordE : FileRecord :=
  ⟨strBytes "a.txt", strBytes "f.txt", 1, 0, 100, false, some "A"⟩

/-- A state with one expired file owned by a session old enough to be stale
once its file list empties. -/
def demoStC9 : ServerState :=
  ⟨[("f", demoRecordE)], [("A", ⟨0, ["f"]⟩)], [(strBytes "f.txt", [1])]⟩

/-- A two-part multipart body with boundary `Q`: the first part carries the
`filename=` marker and a blank-line header terminator but an unquoted
filename, the second part a quoted one. -/
def demoBufC6 : List Nat :=
  strBytes "--Q\r\nx filename=a\r\n\r\nP0\r\n--Q\r\nh filename=\"y\"\r\n\r\nP1\r\n--Q--\r\n"

/-- The first bounded segment of `demoBufC6`. -/
def demoPart0 : List Nat := strBytes "\r\nx filename=a\r\n\r\nP0\r\n"

/-- The second bounded segment of `demoBufC6`. -/
def demoPart1 : List Nat := strBytes "\r\nh filename=\"y\"\r\n\r\nP1\r\n"

/-! ## Lemmas about the byte-scanning primitives -/

theorem idxOf_eq_some_of (pat l : List Nat) (i : Nat)
    (h1 : occursAt pat l i) (h2 : ∀ j < i, ¬ occursAt pat l j) :
    idxOf? pat l = some i := by
  induction l generalizing i with
  | nil =>
    have hpat : pat = [] := by
      have h1' := h1
      simp only [occursAt, List.drop_nil] at h1'
      simpa using h1'.length_le
    subst hpat
    have hi : i = 0 := by
      by_contra hne
      exact h2 0 (Nat.pos_of_ne_zero hne) List.nil_prefix
    subst hi
    simp [idxOf?]
  | cons a t ih =>
    cases i with
    | zero =>
      have hp : pat.isPrefixOf (a :: t) = true := by
        apply List.isPrefixOf_iff_prefix.mpr
        simpa [occursAt] using h1
      simp [idxOf?, hp]
    | succ j =>
      have hnp : ¬ pat.isPrefixOf (a :: t) = true := by
        intro hp
        exact h2 0 (Nat.succ_pos j) (by simpa [occursAt] using List.isPrefixOf_iff_prefix.mp hp)
      have ihj : idxOf? pat t = some j :=
        ih j h1 (fun k hk ho => h2 (k + 1) (Nat.succ_lt_succ hk) ho)
      simp [idxOf?, hnp, ihj]

theorem idxOf_eq_none_of (pat l : List Nat) (h : ∀ j, ¬ occursAt pat l j) :
    idxOf? pat l = none := by
  induction l with
  | nil =>
    have hp : ¬ pat = [] := by
      intro hpat
      exact h 0 (by simp [occursAt, hpat])
    simp [idxOf?, hp]
  | cons a t ih =>
    have h0 : ¬ pat.isPrefixOf (a :: t) = true := by
      intro hp
      exact h 0 (by simpa [occursAt] using List.isPrefixOf_iff_prefix.mp hp)
    simp [idxOf?, h0, ih (fun j => h (j + 1))]

theorem not_occursAt_of_idxOf_eq_none (pat l : List Nat) (i : Nat)
    (h : idxOf? pat l = none) : ¬ occursAt pat l i := by
  induction l generalizing i with
  | nil =>
    intro ho
    have hpat : pat = [] := by
      have ho' := ho
      simp only [occursAt, List.drop_nil] at ho'
      simpa using ho'.length_le
    simp [idxOf?, hpat] at h
  | cons a t ih =>
    intro ho
    by_cases hp : pat.isPrefixOf (a :: t) = true
    · simp [idxOf?, hp] at h
    · simp only [idxOf?, if_neg hp, Option.map_eq_none'] at h
      cases i with
      | zero =>
        exact hp (List.isPrefixOf_iff_prefix.mpr (by simpa [occursAt] using ho))
      | succ j => exact ih j h ho

theorem containsPat_of_occursAt (pat l : List Nat) (i : Nat) (h : occursAt pat l i) :
    containsPat pat l = true := by
  unfold containsPat
  cases hx : idxOf? pat l with
  | none => exact absurd h (not_occursAt_of_idxOf_eq_none pat l i hx)
  | some k => rfl

theorem occursAt_drop (pat l : List Nat) (s j : Nat) :
    occursAt pat (l.drop s) j ↔ occursAt pat l (s + j) := by
  simp [occursAt, List.drop_drop]

theorem idxFrom_eq_some_of (pat l : List Nat) (s i : Nat)
    (hsi : s ≤ i) (h1 : occursAt pat l i)
    (h2 : ∀ j, s ≤ j → j < i → ¬ occursAt pat l j) :
    idxFrom pat l s = some i := by
  unfold idxFrom
  have h1' : occursAt pat (l.drop s) (i - s) := by
    rw [occursAt_drop, Nat.add_sub_cancel' hsi]
    exact h1
  have h2' : ∀ j < i - s, ¬ occursAt pat (l.drop s) j := by
    intro j hj ho
    exact h2 (s + j) (Nat.le_add_right _ _) (by omega) ((occursAt_drop pat l s j).mp ho)
  rw [idxOf_eq_some_of pat _ (i - s) h1' h2', Option.map_some']
  congr 1
  omega

theorem idxFrom_eq_none_of (pat l : List Nat) (s : Nat)
    (h : ∀ j, s ≤ j → ¬ occursAt pat l j) : idxFrom pat l s = none := by
  unfold idxFrom
  rw [idxOf_eq_none_of pat _ (fun j ho =>
    h (s + j) (Nat.le_add_right _ _) ((occursAt_drop pat l s j).mp ho))]
  rfl

theorem occursAt_add_length_le (pat l : List Nat) (i : Nat) (hp : pat ≠ [])
    (h : occursAt pat l i) : i + pat.length ≤ l.length := by
  have hle := h.length_le
  simp only [List.length_drop] at hle
  have hpos : 0 < pat.length := List.length_pos.mpr hp
  omega

theorem findAll_pair (bb l : List Nat) (d : Nat)
    (hbb : bb ≠ [])
    (h0 : occursAt bb l 0) (hd : occursAt bb l d) (hbd : bb.length ≤ d)
    (huniq : ∀ i, occursAt bb l i → i = 0 ∨ i = d) :
    findAll bb l = [0, d] := by
  have hbl : 0 < bb.length := List.length_pos.mpr hbb
  have hdl : d + bb.length ≤ l.length := occursAt_add_length_le bb l d hbb hd
  have f1 : idxFrom bb l 0 = some 0 :=
    idxFrom_eq_some_of bb l 0 0 (Nat.le_refl 0) h0 (fun j _ hj => by omega)
  have f2 : idxFrom bb l (0 + bb.length) = some d := by
    apply idxFrom_eq_some_of
    · omega
    · exact hd
    · intro j hj1 hj2 ho
      rcases huniq j ho with rfl | rfl <;> omega
  have f3 : idxFrom bb l (d + bb.length) = none := by
    apply idxFrom_eq_none_of
    intro j hj ho
    rcases huniq j ho with rfl | rfl <;> omega
  obtain ⟨k, hk⟩ : ∃ k, l.length + 1 = k + 1 + 1 + 1 := ⟨l.length - 2, by omega⟩
  unfold findAll
  rw [hk]
  simp only [findAllAux, f1, f2, f3]

theorem occursAt_byte (pat l : List Nat) (i k : Nat)
    (h : occursAt pat l i) (hk : k < pat.length) : l[i + k]? = pat[k]? := by
  obtain ⟨t, ht⟩ := h
  rw [← List.getElem?_drop, ← ht, List.getElem?_append_left hk]

theorem prefix_of_append_of_le (pat X Y : List Nat)
    (h : pat <+: X ++ Y) (hl : pat.length ≤ X.length) : pat <+: X := by
  have h2 := List.prefix_iff_eq_take.mp h
  rw [List.take_append_of_le_length hl] at h2
  rw [h2]
  exact List.take_prefix _ _

theorem mem_of_getElem?_some (l : List Nat) (k c : Nat) (h : l[k]? = some c) : c ∈ l := by
  obtain ⟨hlt, hv⟩ := List.getElem?_eq_some_iff.mp h
  exact hv ▸ List.getElem_mem hlt

theorem idxOf_headerEnd (M B : List Nat) (hM0 : M ≠ []) (hM : ∀ c ∈ M, ¬ c = 13)
    (hB : headerEndMarker <+: B) :
    idxOf? headerEndMarker ([13, 10] ++ (M ++ B)) = some (2 + M.length) := by
  apply idxOf_eq_some_of
  · have hre : ([13, 10] : List Nat) ++ (M ++ B) = ([13, 10] ++ M) ++ B := by simp
    have hlen : (([13, 10] : List Nat) ++ M).length = 2 + M.length := by
      simp
      omega
    unfold occursAt
    rw [hre, ← hlen, List.drop_left]
    exact hB
  · intro j hj ho
    have hMlen : 0 < M.length := List.length_pos.mpr hM0
    have hmem : ∀ k, k < M.length → ([13, 10] ++ (M ++ B))[k + 2]? = M[k]? := by
      intro k hk
      have h1 : ([13, 10] ++ (M ++ B))[k + 2]? = (M ++ B)[k + 2 - 2]? := by
        rw [List.getElem?_append]
        have hcond : ¬ k + 2 < ([13, 10] : List Nat).length := by simp
        rw [if_neg hcond]
        rfl
      rw [h1, show k + 2 - 2 = k by omega, List.getElem?_append_left hk]
    match j, hj with
    | 0, _ =>
      have hb := occursAt_byte headerEndMarker _ 0 2 ho (by decide)
      have h2 : ([13, 10] ++ (M ++ B))[(0 : Nat) + 2]? = M[0]? := by
        have := hmem 0 hMlen
        simpa using this
      have hx : M[0]? = some 13 := by
        rw [← h2]
        rw [show (0 : Nat) + 2 = 0 + 2 from rfl] at hb
        rw [hb]
        decide
      exact hM 13 (mem_of_getElem?_some M 0 13 hx) rfl
    | 1, _ =>
      have hb := occursAt_byte headerEndMarker _ 1 0 ho (by decide)
      simp [headerEndMarker] at hb
    | (k + 2), hj =>
      have hkM : k < M.length := by omega
      have hb := occursAt_byte headerEndMarker _ (k + 2) 0 ho (by decide)
      have h2 := hmem k hkM
      have hx : M[k]? = some 13 := by
        rw [← h2]
        simpa using hb
      exact hM 13 (mem_of_getElem?_some M k 13 hx) rfl

theorem matchFilename_cons (c : Nat) (rest : List Nat) :
    matchFilename (c :: rest) =
      if filenameQuoteLit.isPrefixOf (c :: rest) then
        match filenameCaptureAt ((c :: rest).drop filenameQuoteLit.length) with
        | some cap => some cap
        | none => matchFilename rest
      else matchFilename rest := rfl

theorem matchFilename_skip (A B : List Nat)
    (h : ∀ p < A.length, ¬ filenameQuoteLit <+: (A ++ B).drop p) :
    matchFilename (A ++ B) = matchFilename B := by
  induction A with
  | nil => simp
  | cons a A2 ih =>
    have h0 : ¬ filenameQuoteLit.isPrefixOf (a :: (A2 ++ B)) = true := by
      intro hp
      exact h 0 (Nat.succ_pos _) (List.isPrefixOf_iff_prefix.mp hp)
    have step : matchFilename ((a :: A2) ++ B) = matchFilename (A2 ++ B) := by
      rw [List.cons_append, matchFilename_cons, if_neg h0]
    rw [step]
    exact ih (fun p hp hocc => h (p + 1) (Nat.succ_lt_succ hp) hocc)

theorem takeWhile_all_append (p : Nat → Bool) (A B : List Nat)
    (h : ∀ a ∈ A, p a = true) :
    List.takeWhile p (A ++ B) = A ++ List.takeWhile p B := by
  induction A with
  | nil => simp
  | cons a A2 ih =>
    rw [List.cons_append, List.takeWhile_cons, h a (by simp)]
    rw [ih (fun x hx => h x (by simp [hx]))]
    rfl

theorem matchFilename_head (L cap : List Nat)
    (hp : filenameQuoteLit <+: L)
    (hcap : filenameCaptureAt (L.drop filenameQuoteLit.length) = some cap) :
    matchFilename L = some cap := by
  cases L with
  | nil =>
    have := hp.length_le
    simp [filenameQuoteLit, filenameMarker, strBytes] at this
  | cons c rest =>
    rw [matchFilename_cons, if_pos (List.isPrefixOf_iff_prefix.mpr hp), hcap]

theorem matchFilename_header (name : List Nat) (hname : name ≠ [])
    (hq : ∀ c ∈ name, ¬ c = 34) :
    matchFilename ([13, 10] ++ (hdrPre ++ (name ++ [34]))) = some name := by
  have hsplit : ([13, 10] : List Nat) ++ (hdrPre ++ (name ++ [34]))
      = (([13, 10] ++ hdrStem) ++ (filenameQuoteLit ++ (name ++ [34]))) := by
    simp [hdrPre, List.append_assoc]
  have hskipFact : ∀ p < (([13, 10] ++ hdrStem : List Nat)).length,
      ¬ filenameQuoteLit <+: ((([13, 10] ++ hdrStem) ++ filenameQuoteLit : List Nat)).drop p := by
    decide
  rw [hsplit, matchFilename_skip]
  · apply matchFilename_head
    · exact List.prefix_append _ _
    · rw [List.drop_left]
      unfold filenameCaptureAt
      have htw : (name ++ [34]).takeWhile (fun c => decide (¬ c = 34)) = name := by
        rw [takeWhile_all_append _ _ _ (fun a ha => by simp [hq a ha])]
        simp [List.takeWhile_cons]
      rw [htw]
      have h1 : 0 < name.length := List.length_pos.mpr hname
      have h2 : name.length < (name ++ [34]).length := by simp
      simp [h1, h2]
  · intro p hp hocc
    set A := ([13, 10] ++ hdrStem : List Nat) with hA
    have hlen10 : filenameQuoteLit.length = 10 := by decide
    have hsplit2 : A ++ (filenameQuoteLit ++ (name ++ [34]))
        = (A ++ filenameQuoteLit) ++ (name ++ [34]) := by
      simp [List.append_assoc]
    have hple : p ≤ ((A ++ filenameQuoteLit : List Nat)).length := by
      simp [List.length_append]
      omega
    rw [hsplit2, List.drop_append_of_le_length hple] at hocc
    have hfit : filenameQuoteLit.length ≤ ((A ++ filenameQuoteLit).drop p).length := by
      simp [List.length_drop, hlen10]
      omega
    exact hskipFact p hp (prefix_of_append_of_le _ _ _ hocc hfit)

theorem extractFromPart_mkPart (name C : List Nat) (hname : name ≠ [])
    (hq : ∀ c ∈ name, ¬ c = 34) (hcr : ∀ c ∈ name, ¬ c = 13) :
    extractFromPart (mkPart name C) = some (name, C) := by
  have hM0 : (hdrPre ++ (name ++ [34]) : List Nat) ≠ [] := by simp
  have hpreCr : ∀ c ∈ hdrPre, ¬ c = 13 := by decide
  have hMcr : ∀ c ∈ (hdrPre ++ (name ++ [34]) : List Nat), ¬ c = 13 := by
    intro c hc
    rcases List.mem_append.mp hc with hc1 | hc2
    · exact hpreCr c hc1
    · rcases List.mem_append.mp hc2 with hc3 | hc4
      · exact hcr c hc3
      · simp at hc4
        subst hc4
        decide
  have hpart : mkPart name C
      = [13, 10] ++ ((hdrPre ++ (name ++ [34])) ++ (headerEndMarker ++ (C ++ [13, 10]))) := by
    simp [mkPart, List.append_assoc]
  have hcont : containsPat filenameMarker (mkPart name C) = true := by
    apply containsPat_of_occursAt _ _ (([13, 10] ++ hdrStem : List Nat)).length
    unfold occursAt
    have hre : mkPart name C
        = ([13, 10] ++ hdrStem)
          ++ (filenameMarker
              ++ ([34] ++ ((name ++ [34]) ++ (headerEndMarker ++ (C ++ [13, 10]))))) := by
      simp [mkPart, hdrPre, filenameQuoteLit, List.append_assoc]
    rw [hre, List.drop_left]
    exact List.prefix_append _ _
  have hidx : idxOf? headerEndMarker (mkPart name C)
      = some (2 + (hdrPre ++ (name ++ [34]) : List Nat).length) := by
    rw [hpart]
    exact idxOf_headerEnd _ _ hM0 hMcr (List.prefix_append _ _)
  have htake : (mkPart name C).take (2 + (hdrPre ++ (name ++ [34]) : List Nat).length)
      = [13, 10] ++ (hdrPre ++ (name ++ [34])) := by
    have hre2 : mkPart name C
        = ([13, 10] ++ (hdrPre ++ (name ++ [34]))) ++ (headerEndMarker ++ (C ++ [13, 10])) := by
      simp [mkPart, List.append_assoc]
    rw [hre2]
    apply List.take_left'
    simp
    omega
  have hmf : matchFilename ((mkPart name C).take
      (2 + (hdrPre ++ (name ++ [34]) : List Nat).length)) = some name := by
    rw [htake]
    exact matchFilename_header name hname hq
  have hslice : sliceJs (mkPart name C)
      (2 + (hdrPre ++ (name ++ [34]) : List Nat).length + headerEndMarker.length)
      ((mkPart name C).length - 2) = C := by
    have hre : mkPart name C
        = (([13, 10] ++ (hdrPre ++ (name ++ [34]))) ++ headerEndMarker) ++ (C ++ [13, 10]) := by
      simp [mkPart, List.append_assoc]
    unfold sliceJs
    rw [hre, List.drop_left' (by simp [headerEndMarker]; omega)]
    have hcount : ((((([13, 10] ++ (hdrPre ++ (name ++ [34]))) ++ headerEndMarker)
          ++ (C ++ [13, 10])) : List Nat).length - 2)
        - (2 + (hdrPre ++ (name ++ [34]) : List Nat).length + headerEndMarker.length)
        = C.length := by
      simp [headerEndMarker]
      omega
    rw [hcount]
    exact List.take_left' rfl
  unfold extractFromPart
  rw [hcont]
  simp only [hidx, hmf, hslice, if_true]

theorem parse_mkBody (b name C : List Nat) (hname : name ≠ [])
    (hq : ∀ c ∈ name, ¬ c = 34) (hcr : ∀ c ∈ name, ¬ c = 13)
    (huniq : ∀ i, occursAt ([45, 45] ++ b) (mkBody b name C) i →
      i = 0 ∨ i = ([45, 45] ++ b).length + (mkPart name C).length) :
    parseMultipartFormData (mkBody b name C) b = ⟨some name, some C⟩ := by
  have hbody : mkBody b name C
      = ([45, 45] ++ b) ++ (mkPart name C ++ (([45, 45] ++ b) ++ [45, 45, 13, 10])) := by
    simp [mkBody, List.append_assoc]
  have hbb0 : ([45, 45] ++ b : List Nat) ≠ [] := by simp
  have h0 : occursAt ([45, 45] ++ b) (mkBody b name C) 0 := by
    unfold occursAt
    rw [hbody, List.drop_zero]
    exact List.prefix_append _ _
  have hd : occursAt ([45, 45] ++ b) (mkBody b name C)
      ((([45, 45] ++ b : List Nat)).length + (mkPart name C).length) := by
    unfold occursAt
    rw [hbody, ← List.append_assoc, List.drop_left' (by simp; omega)]
    exact List.prefix_append _ _
  have hfa : findAll ([45, 45] ++ b) (mkBody b name C)
      = [0, ([45, 45] ++ b : List Nat).length + (mkPart name C).length] :=
    findAll_pair _ _ _ hbb0 h0 hd (by omega) huniq
  have hslice2 : sliceJs (mkBody b name C) (0 + ([45, 45] ++ b : List Nat).length)
      (([45, 45] ++ b : List Nat).length + (mkPart name C).length) = mkPart name C := by
    unfold sliceJs
    rw [hbody, Nat.zero_add, List.drop_left,
      show ([45, 45] ++ b : List Nat).length + (mkPart name C).length
          - ([45, 45] ++ b : List Nat).length = (mkPart name C).length by omega]
    exact List.take_left _ _
  have hparts : partsOf ([45, 45] ++ b) (mkBody b name C) = [mkPart name C] := by
    unfold partsOf
    rw [hfa]
    simp only [List.tail_cons, List.zip_cons_cons, List.zip_nil_right, List.map_cons,
      List.map_nil]
    rw [hslice2]
  unfold parseMultipartFormData
  rw [hparts]
  unfold scanParts
  simp only [extractFromPart_mkPart name C hname hq hcr]

/-! ## Lemmas about the association-list store primitives -/

section StoreLemmas

variable {κ α : Type} [DecidableEq κ]

theorem lookupA_putA_self (k : κ) (v : α) (l : List (κ × α)) :
    lookupA k (putA k v l) = some v := by
  induction l with
  | nil => simp [putA, lookupA]
  | cons e t ih =>
    by_cases he : e.1 = k
    · simp [putA, he, lookupA]
    · simp [putA, he, lookupA, ih]

theorem lookupA_putA_ne (k k2 : κ) (v : α) (l : List (κ × α)) (h : ¬ k2 = k) :
    lookupA k2 (putA k v l) = lookupA k2 l := by
  have hk : ¬ k = k2 := fun hc => h hc.symm
  induction l with
  | nil => simp [putA, lookupA, hk]
  | cons e t ih =>
    by_cases he : e.1 = k
    · have he2 : ¬ e.1 = k2 := by
        rw [he]
        exact hk
      simp [putA, he, lookupA, hk, he2]
    · simp [putA, he, lookupA, ih]

theorem lookupA_eraseA_self (k : κ) (l : List (κ × α)) :
    lookupA k (eraseA k l) = none := by
  induction l with
  | nil => rfl
  | cons e t ih =>
    by_cases he : e.1 = k
    · simpa [eraseA, List.filter_cons, he] using ih
    · simpa [eraseA, List.filter_cons, he, lookupA] using ih

theorem lookupA_eraseA_ne (k k2 : κ) (l : List (κ × α)) (h : ¬ k2 = k) :
    lookupA k2 (eraseA k l) = lookupA k2 l := by
  induction l with
  | nil => rfl
  | cons e t ih =>
    rw [eraseA] at ih ⊢
    rw [List.filter_cons]
    by_cases he : e.1 = k
    · have he2 : ¬ e.1 = k2 := by
        rw [he]
        exact fun hc => h hc.symm
      simp only [he, decide_True, Bool.not_true, Bool.false_eq_true, if_false]
      rw [show lookupA k2 (e :: t) = lookupA k2 t from by simp [lookupA, he2]]
      exact ih
    · simp only [he, decide_False, Bool.not_false, if_true]
      by_cases he2 : e.1 = k2
      · simp [lookupA, he2]
      · simp only [lookupA, he2, if_false]
        exact ih

theorem lookupA_adjustA (k k2 : κ) (f : α → α) (l : List (κ × α)) :
    lookupA k2 (adjustA k f l) =
      if k2 = k then (lookupA k2 l).map f else lookupA k2 l := by
  induction l with
  | nil => simp [adjustA, lookupA]
  | cons e t ih =>
    rw [adjustA] at ih ⊢
    rw [List.map_cons]
    by_cases hek : e.1 = k
    · by_cases hkk : k2 = k
      · have he2 : e.1 = k2 := by rw [hek, hkk]
        simp [hek, lookupA, hkk, he2]
      · have he2 : ¬ e.1 = k2 := by
          rw [hek]
          exact fun hc => hkk hc.symm
        have hk2 : ¬ k = k2 := fun hc => hkk hc.symm
        simp only [hek, if_true, lookupA, he2, hk2, if_false, hkk] at ih ⊢
        exact ih
    · by_cases he2 : e.1 = k2
      · by_cases hkk : k2 = k
        · exact absurd (he2.trans hkk) hek
        · simp [hek, lookupA, he2, hkk]
      · simp only [hek, if_false, lookupA, he2] at ih ⊢
        exact ih

end StoreLemmas

/-! ## The boundary regex on headers without a boundary parameter -/

theorem matchBoundaryParam_eq_none (s : List Char) (h : hasBoundaryLit s = false) :
    matchBoundaryParam s = none := by
  induction s with
  | nil => rfl
  | cons c rest ih =>
    rw [hasBoundaryLit, Bool.or_eq_false_iff] at h
    have htry : tryBoundaryAt (c :: rest) = none := by
      unfold tryBoundaryAt
      simp [h.1]
    rw [matchBoundaryParam, htry]
    exact ih h.2

/-! ## Claim theorems -/

/-- C5: every POST to the upload endpoint whose content-type header carries
no `boundary=` parameter (a missing header behaves as the empty string) is
answered by the 400 response naming the invalid or missing boundary, leaving
the state unchanged, and not by a 500 server error. -/
theorem claim_missing_boundary_400 (st : ServerState) (ctH : Option (List Char))
    (body : List Nat) (sid fid : String) (now : Nat)
    (h : hasBoundaryLit (ctH.getD []) = false) :
    uploadHandler st ctH body sid fid now = (UploadResp.invalidBoundary, st) ∧
    (uploadHandler st ctH body sid fid now).1.status = 400 ∧
    ¬ (uploadHandler st ctH body sid fid now).1.status = 500 := by
  have hmain : uploadHandler st ctH body sid fid now = (UploadResp.invalidBoundary, st) := by
    unfold uploadHandler
    rw [matchBoundaryParam_eq_none _ h]
  refine ⟨hmain, ?_, ?_⟩ <;> rw [hmain] <;> simp [UploadResp.status]

theorem claim_missing_boundary_400_witness :
    hasBoundaryLit ((some "multipart/form-data".data : Option (List Char)).getD []) = false ∧
    (uploadHandler ⟨[], [], []⟩ (some "multipart/form-data".data) [] "s" "f" 0
        = (UploadResp.invalidBoundary, ⟨[], [], []⟩) ∧
      (uploadHandler ⟨[], [], []⟩ (some "multipart/form-data".data) [] "s" "f" 0).1.status = 400 ∧
      ¬ (uploadHandler ⟨[], [], []⟩ (some "multipart/form-data".data) [] "s" "f" 0).1.status = 500) :=
  ⟨by decide,
   claim_missing_boundary_400 ⟨[], [], []⟩ (some "multipart/form-data".data) [] "s" "f" 0
     (by decide)⟩

/-- C7 counterexample: the store insert `fileDatabase[fileId] = record` does
not fail on an ID collision; at this concrete input the existing record is
silently replaced by the new one, refuting the claim that `put` fails rather
than overwriting. -/
theorem claim_put_collision_counterexample :
    lookupA "f1" [("f1", demoRecordA)] = some demoRecordA ∧
    putA "f1" demoRecordB [("f1", demoRecordA)] = [("f1", demoRecordB)] ∧
    lookupA "f1" (putA "f1" demoRecordB [("f1", demoRecordA)]) = some demoRecordB ∧
    ¬ demoRecordB = demoRecordA := by
  decide

/-- C7 amended: insertion into the File Store never fails; for every
insertion whose file ID already exists, the store afterwards maps the ID to
the newly inserted record, the previous record being silently discarded. -/
theorem claim_put_overwrites (db : List (String × FileRecord)) (fid : String)
    (old new : FileRecord) (h : lookupA fid db = some old) :
    lookupA fid (putA fid new db) = some new :=
  lookupA_putA_self fid new db

theorem claim_put_overwrites_witness :
    lookupA "f1" [("f1", demoRecordA)] = some demoRecordA ∧
    lookupA "f1" (putA "f1" demoRecordB [("f1", demoRecordA)]) = some demoRecordB :=
  ⟨by decide, claim_put_overwrites [("f1", demoRecordA)] "f1" demoRecordA demoRecordB (by decide)⟩

/-- C1: round-trip.  For every payload `C` (any byte values, nothing need be
valid text) embedded as the file-bearing part of a well-formed multipart
body (the file name is nonempty ASCII without quotes or CR, and the boundary
delimiter occurs in the body only at its two delimiter positions), the
extractor recovers exactly `C`, and downloading the file stored by the
upload streams back exactly `C`. -/
theorem claim_roundtrip (st : ServerState) (sid fid : String) (now : Nat)
    (b name C : List Nat)
    (hname : name ≠ [])
    (hascii : ∀ c ∈ name, c < 128 ∧ ¬ c = 34 ∧ ¬ c = 13)
    (huniq : ∀ i < (mkBody b name C).length,
      occursAt ([45, 45] ++ b) (mkBody b name C) i →
      i = 0 ∨ i = ([45, 45] ++ b).length + (mkPart name C).length) :
    parseMultipartFormData (mkBody b name C) b = ⟨some name, some C⟩ ∧
    (downloadRequest (uploadApply st sid fid name C now) (storageFilename fid name) fid).1
      = DownloadResp.stream name (getContentType (storageFilename fid name)) C := by
  have hq : ∀ c ∈ name, ¬ c = 34 := fun c hc => (hascii c hc).2.1
  have hcr : ∀ c ∈ name, ¬ c = 13 := fun c hc => (hascii c hc).2.2
  have huniq2 : ∀ i, occursAt ([45, 45] ++ b) (mkBody b name C) i →
      i = 0 ∨ i = ([45, 45] ++ b).length + (mkPart name C).length := by
    intro i hi
    have hb0 : ([45, 45] ++ b : List Nat) ≠ [] := by simp
    have hlen := occursAt_add_length_le _ _ _ hb0 hi
    have hbpos : 0 < ([45, 45] ++ b : List Nat).length := List.length_pos.mpr hb0
    exact huniq i (by omega) hi
  constructor
  · exact parse_mkBody b name C hname hq hcr huniq2
  · have h1 : lookupA (storageFilename fid name) (uploadApply st sid fid name C now).disk
        = some C := lookupA_putA_self _ _ _
    have h2 : lookupA fid (uploadApply st sid fid name C now).fileDatabase
        = some ⟨name, storageFilename fid name, C.length, now, now + FILE_EXPIRY,
            false, some sid⟩ := lookupA_putA_self _ _ _
    unfold downloadRequest
    rw [h1, h2]

theorem claim_roundtrip_witness :
    ((strBytes "a.txt" ≠ [] ∧ (∀ c ∈ strBytes "a.txt", c < 128 ∧ ¬ c = 34 ∧ ¬ c = 13)) ∧
      (∀ i < (mkBody (strBytes "XY") (strBytes "a.txt") [255, 0, 255, 13, 10]).length,
        occursAt ([45, 45] ++ strBytes "XY")
          (mkBody (strBytes "XY") (strBytes "a.txt") [255, 0, 255, 13, 10]) i →
        i = 0 ∨ i = ([45, 45] ++ strBytes "XY").length
          + (mkPart (strBytes "a.txt") [255, 0, 255, 13, 10]).length)) ∧
    (parseMultipartFormData (mkBody (strBytes "XY") (strBytes "a.txt") [255, 0, 255, 13, 10])
        (strBytes "XY") = ⟨some (strBytes "a.txt"), some [255, 0, 255, 13, 10]⟩ ∧
      (downloadRequest
          (uploadApply ⟨[], [], []⟩ "S" "F" (strBytes "a.txt") [255, 0, 255, 13, 10] 0)
          (storageFilename "F" (strBytes "a.txt")) "F").1
        = DownloadResp.stream (strBytes "a.txt")
            (getContentType (storageFilename "F" (strBytes "a.txt"))) [255, 0, 255, 13, 10]) :=
  ⟨⟨⟨by decide, by decide⟩, by decide⟩,
   claim_roundtrip ⟨[], [], []⟩ "S" "F" 0 (strBytes "XY") (strBytes "a.txt")
     [255, 0, 255, 13, 10] (by decide) (by decide) (by decide)⟩

/-- C4: a zero-byte payload is preserved, not treated as no-file.  For every
well-formed multipart body whose file part declares a name and carries the
empty payload, the extractor returns the empty buffer (not the missing-file
signal), the upload handler answers 200 rather than the 400 no-file error,
and the created FileRecord has size 0. -/
theorem claim_zero_byte_upload (st : ServerState) (sid fid : String) (now : Nat)
    (ct bc : List Char) (name : List Nat)
    (hct : matchBoundaryParam ct = some bc)
    (hname : name ≠ [])
    (hascii : ∀ c ∈ name, c < 128 ∧ ¬ c = 34 ∧ ¬ c = 13)
    (huniq : ∀ i < (mkBody (bc.map Char.toNat) name []).length,
      occursAt ([45, 45] ++ bc.map Char.toNat) (mkBody (bc.map Char.toNat) name []) i →
      i = 0 ∨ i = ([45, 45] ++ bc.map Char.toNat).length + (mkPart name []).length) :
    parseMultipartFormData (mkBody (bc.map Char.toNat) name []) (bc.map Char.toNat)
      = ⟨some name, some []⟩ ∧
    uploadHandler st (some ct) (mkBody (bc.map Char.toNat) name []) sid fid now
      = (UploadResp.ok fid (storageFilename fid name) (now + FILE_EXPIRY),
         uploadApply st sid fid name [] now) ∧
    lookupA fid (uploadApply st sid fid name [] now).fileDatabase
      = some ⟨name, storageFilename fid name, 0, now, now + FILE_EXPIRY, false, some sid⟩ := by
  have hq : ∀ c ∈ name, ¬ c = 34 := fun c hc => (hascii c hc).2.1
  have hcr : ∀ c ∈ name, ¬ c = 13 := fun c hc => (hascii c hc).2.2
  have huniq2 : ∀ i, occursAt ([45, 45] ++ bc.map Char.toNat) (mkBody (bc.map Char.toNat) name []) i →
      i = 0 ∨ i = ([45, 45] ++ bc.map Char.toNat).length + (mkPart name []).length := by
    intro i hi
    have hb0 : ([45, 45] ++ bc.map Char.toNat : List Nat) ≠ [] := by simp
    have hlen := occursAt_add_length_le _ _ _ hb0 hi
    have hbpos : 0 < ([45, 45] ++ bc.map Char.toNat : List Nat).length := List.length_pos.mpr hb0
    exact huniq i (by omega) hi
  have hparse := parse_mkBody (bc.map Char.toNat) name [] hname hq hcr huniq2
  refine ⟨hparse, ?_, lookupA_putA_self _ _ _⟩
  unfold uploadHandler
  simp only [Option.getD_some, hct, hparse, hname, if_neg hname]
  simp

theorem claim_zero_byte_upload_witness :
    ((matchBoundaryParam "multipart/form-data; boundary=XY".data = some "XY".data ∧
        strBytes "a.txt" ≠ []) ∧
      ((∀ c ∈ strBytes "a.txt", c < 128 ∧ ¬ c = 34 ∧ ¬ c = 13) ∧
        (∀ i < (mkBody ("XY".data.map Char.toNat) (strBytes "a.txt") []).length,
          occursAt ([45, 45] ++ "XY".data.map Char.toNat)
            (mkBody ("XY".data.map Char.toNat) (strBytes "a.txt") []) i →
          i = 0 ∨ i = ([45, 45] ++ "XY".data.map Char.toNat).length
            + (mkPart (strBytes "a.txt") []).length))) ∧
    (parseMultipartFormData (mkBody ("XY".data.map Char.toNat) (strBytes "a.txt") [])
        ("XY".data.map Char.toNat) = ⟨some (strBytes "a.txt"), some []⟩ ∧
      uploadHandler ⟨[], [], []⟩ (some "multipart/form-data; boundary=XY".data)
          (mkBody ("XY".data.map Char.toNat) (strBytes "a.txt") []) "S" "F" 7
        = (UploadResp.ok "F" (storageFilename "F" (strBytes "a.txt")) (7 + FILE_EXPIRY),
           uploadApply ⟨[], [], []⟩ "S" "F" (strBytes "a.txt") [] 7) ∧
      lookupA "F" (uploadApply ⟨[], [], []⟩ "S" "F" (strBytes "a.txt") [] 7).fileDatabase
        = some ⟨strBytes "a.txt", storageFilename "F" (strBytes "a.txt"), 0, 7,
            7 + FILE_EXPIRY, false, some "S"⟩) :=
  ⟨⟨⟨by decide, by decide⟩, ⟨by decide, by decide⟩⟩,
   claim_zero_byte_upload ⟨[], [], []⟩ "S" "F" 7 "multipart/form-data; boundary=XY".data
     "XY".data (strBytes "a.txt") (by decide) (by decide) (by decide) (by decide)⟩

/-- C6 counterexample: at this concrete two-part body the first part whose
bytes contain the `filename=` marker and whose header block terminates with
a double CRLF is the first bounded segment, yet the extractor skips it (its
filename parameter is unquoted, so the quoted-filename regex fails) and
honors the second part instead — the returned payload is the second part
payload, not the slice of the first part that the claim designates. -/
theorem claim_first_marker_counterexample :
    partsOf (strBytes "--Q") demoBufC6 = [demoPart0, demoPart1] ∧
    containsPat filenameMarker demoPart0 = true ∧
    (idxOf? headerEndMarker demoPart0).isSome = true ∧
    parseMultipartFormData demoBufC6 (strBytes "Q")
      = ⟨some (strBytes "y"), some (strBytes "P1")⟩ ∧
    ¬ (parseMultipartFormData demoBufC6 (strBytes "Q")).fileContent
      = (idxOf? headerEndMarker demoPart0).map
          (fun h => sliceJs demoPart0 (h + headerEndMarker.length) (demoPart0.length - 2)) := by
  decide

/-- C6 amended: the extractor honors exactly the first part that passes all
three checks — it contains the `filename=` marker, its header block
terminates with a double CRLF, and the header matches the quoted
filename pattern; a part failing any of the three (in particular one with a
marker but no blank-line terminator) is skipped and the scan continues, and
every part after the first qualifying one is ignored. -/
theorem claim_first_qualifying_part (pre post : List (List Nat)) (q name content : List Nat)
    (hpre : ∀ p ∈ pre, extractFromPart p = none)
    (hq : extractFromPart q = some (name, content)) :
    (∀ p, idxOf? headerEndMarker p = none → extractFromPart p = none) ∧
    scanParts (pre ++ q :: post) = ⟨some name, some content⟩ := by
  constructor
  · intro p hnone
    unfold extractFromPart
    rw [hnone]
    simp
  · induction pre with
    | nil => simp [scanParts, hq]
    | cons p pre2 ih =>
      rw [List.cons_append, scanParts, hpre p (by simp)]
      exact ih (fun x hx => hpre x (by simp [hx]))

theorem downloadFinish_eq (s : ServerState) (filename : List Nat) (fid : String)
    (md2 : FileRecord)
    (h1 : (lookupA filename s.disk).isSome = true)
    (h2 : lookupA fid s.fileDatabase = some md2) :
    downloadFinish s filename fid =
      { fileDatabase := eraseA fid s.fileDatabase,
        userSessions :=
          match md2.sessionId with
          | some sid =>
            if (lookupA sid s.userSessions).isSome then
              adjustA sid (fun t => ⟨t.created, t.files.filter (fun i => decide (¬ i = fid))⟩)
                s.userSessions
            else s.userSessions
          | none => s.userSessions,
        disk := eraseA filename s.disk } := by
  unfold downloadFinish
  simp only [h1, if_true]
  have h2' : lookupA fid ({ s with disk := eraseA filename s.disk } : ServerState).fileDatabase
      = some md2 := h2
  rw [h2']

theorem downloadRequest_404_of_no_disk (s : ServerState) (filename : List Nat) (fid : String)
    (h : lookupA filename s.disk = none) :
    downloadRequest s filename fid = (DownloadResp.notFoundOrExpired, s) := by
  unfold downloadRequest
  rw [h]

/-- C2: single-use deletion.  When the stored bytes and the metadata both
exist, the download request streams the bytes; after the finish event the
bytes are gone from disk, the FileRecord is gone from the File Store, the
file ID is detached from its owning session, and a second request on the
same link is answered with the 404 not-found-or-expired response. -/
theorem claim_single_use_download (st : ServerState) (filename : List Nat) (fid : String)
    (md : FileRecord) (bytes : List Nat)
    (hdisk : lookupA filename st.disk = some bytes)
    (hdb : lookupA fid st.fileDatabase = some md) :
    (downloadRequest st filename fid).1
      = DownloadResp.stream md.originalName (getContentType filename) bytes ∧
    lookupA filename (downloadFinish (downloadRequest st filename fid).2 filename fid).disk
      = none ∧
    lookupA fid (downloadFinish (downloadRequest st filename fid).2 filename fid).fileDatabase
      = none ∧
    (∀ sid rec, md.sessionId = some sid →
      lookupA sid (downloadFinish (downloadRequest st filename fid).2 filename fid).userSessions
        = some rec → fid ∉ rec.files) ∧
    downloadRequest (downloadFinish (downloadRequest st filename fid).2 filename fid) filename fid
      = (DownloadResp.notFoundOrExpired,
         downloadFinish (downloadRequest st filename fid).2 filename fid) := by
  have hreq : downloadRequest st filename fid
      = (DownloadResp.stream md.originalName (getContentType filename) bytes,
         { st with
             fileDatabase := adjustA fid (fun r => { r with downloaded := true })
               st.fileDatabase }) := by
    unfold downloadRequest
    rw [hdisk, hdb]
  have hdisk1 : lookupA filename (downloadRequest st filename fid).2.disk = some bytes := by
    simp only [hreq]
    exact hdisk
  have hdb1 : lookupA fid (downloadRequest st filename fid).2.fileDatabase
      = some { md with downloaded := true } := by
    simp only [hreq]
    rw [lookupA_adjustA]
    simp [hdb]
  have hfin := downloadFinish_eq (downloadRequest st filename fid).2 filename fid
    { md with downloaded := true } (by rw [hdisk1]; rfl) hdb1
  have hc1 : lookupA filename
      (downloadFinish (downloadRequest st filename fid).2 filename fid).disk = none := by
    rw [hfin]
    exact lookupA_eraseA_self _ _
  have hc2 : lookupA fid
      (downloadFinish (downloadRequest st filename fid).2 filename fid).fileDatabase = none := by
    rw [hfin]
    exact lookupA_eraseA_self _ _
  refine ⟨by rw [hreq], hc1, hc2, ?_, downloadRequest_404_of_no_disk _ _ _ hc1⟩
  intro sid rec hsid hrec
  rw [hfin] at hrec
  simp only [hsid] at hrec
  by_cases hp : (lookupA sid (downloadRequest st filename fid).2.userSessions).isSome = true
  · rw [if_pos hp, lookupA_adjustA] at hrec
    simp only [if_pos rfl] at hrec
    cases hx : lookupA sid (downloadRequest st filename fid).2.userSessions with
    | none =>
      rw [hx] at hrec
      simp at hrec
    | some t =>
      rw [hx] at hrec
      simp only [Option.map_some', if_true] at hrec
      have hrec2 := Option.some.inj hrec
      rw [← hrec2]
      simp [List.mem_filter]
  · rw [if_neg hp] at hrec
    exact absurd (by rw [hrec]; rfl) hp

theorem claim_single_use_download_witness :
    (lookupA (strBytes "F.txt") demoStC2.disk = some [1, 2] ∧
      lookupA "F" demoStC2.fileDatabase = some demoRecordF) ∧
    ((downloadRequest demoStC2 (strBytes "F.txt") "F").1
        = DownloadResp.stream demoRecordF.originalName
            (getContentType (strBytes "F.txt")) [1, 2] ∧
      lookupA (strBytes "F.txt")
          (downloadFinish (downloadRequest demoStC2 (strBytes "F.txt") "F").2
            (strBytes "F.txt") "F").disk = none ∧
      lookupA "F"
          (downloadFinish (downloadRequest demoStC2 (strBytes "F.txt") "F").2
            (strBytes "F.txt") "F").fileDatabase = none ∧
      (∀ sid rec, demoRecordF.sessionId = some sid →
        lookupA sid
            (downloadFinish (downloadRequest demoStC2 (strBytes "F.txt") "F").2
              (strBytes "F.txt") "F").userSessions = some rec → "F" ∉ rec.files) ∧
      downloadRequest
          (downloadFinish (downloadRequest demoStC2 (strBytes "F.txt") "F").2
            (strBytes "F.txt") "F") (strBytes "F.txt") "F"
        = (DownloadResp.notFoundOrExpired,
           downloadFinish (downloadRequest demoStC2 (strBytes "F.txt") "F").2
             (strBytes "F.txt") "F")) :=
  ⟨⟨by decide, by decide⟩,
   claim_single_use_download demoStC2 (strBytes "F.txt") "F" demoRecordF [1, 2]
     (by decide) (by decide)⟩

/-- C8 counterexample: in the download-finish path, when the physical bytes
are already absent the `unlinkSync` throw aborts the callback before the
metadata delete, so the FileRecord is not removed from the File Store —
refuting the claim that metadata removal happens even when physical deletion
fails. -/
theorem claim_removal_counterexample :
    lookupA (strBytes "kk.txt") demoStC8.disk = none ∧
    downloadFinish demoStC8 (strBytes "kk.txt") "kk" = demoStC8 ∧
    lookupA "kk" demoStC8.fileDatabase = some demoRecordK := by
  decide

theorem resetFileStep_keeps_none (acc : ServerState) (f fid : String)
    (h : lookupA fid acc.fileDatabase = none) :
    lookupA fid (resetFileStep acc f).fileDatabase = none := by
  unfold resetFileStep
  cases hx : lookupA f acc.fileDatabase with
  | none => exact h
  | some md2 =>
    show lookupA fid (eraseA f acc.fileDatabase) = none
    by_cases hf : fid = f
    · subst hf
      exact lookupA_eraseA_self _ _
    · rw [lookupA_eraseA_ne _ _ _ hf]
      exact h

theorem resetFold_keeps_none (files : List String) (acc : ServerState) (fid : String)
    (h : lookupA fid acc.fileDatabase = none) :
    lookupA fid (files.foldl resetFileStep acc).fileDatabase = none := by
  induction files generalizing acc with
  | nil => exact h
  | cons f fs ih => exact ih _ (resetFileStep_keeps_none acc f fid h)

theorem resetFileStep_self (acc : ServerState) (fid : String) :
    lookupA fid (resetFileStep acc fid).fileDatabase = none := by
  unfold resetFileStep
  cases hx : lookupA fid acc.fileDatabase with
  | none => exact hx
  | some md2 => exact lookupA_eraseA_self _ _

theorem resetFold_mem_none (files : List String) (acc : ServerState) (fid : String)
    (h : fid ∈ files) :
    lookupA fid (files.foldl resetFileStep acc).fileDatabase = none := by
  induction files generalizing acc with
  | nil => cases h
  | cons f fs ih =>
    rcases List.mem_cons.mp h with rfl | hmem
    · exact resetFold_keeps_none fs _ fid (resetFileStep_self acc fid)
    · exact ih _ hmem

/-- C8 amended: in the expiry-sweep and session-reset paths the unlink is
guarded by `existsSync`, so an absent physical file never prevents the
FileRecord from being removed from the File Store; in the download-finish
path, by contrast, the unguarded `unlinkSync` throws when the file is absent
and the catch block swallows the error before the metadata delete runs, so
the FileRecord stays in the store and the state is unchanged. -/
theorem claim_removal_paths (now : Nat) (st : ServerState) (fid : String) (md : FileRecord)
    (filename : List Nat) (sid newSid : String) :
    (now > md.expiryTime →
      lookupA fid (fileSweepStep now st (fid, md)).fileDatabase = none) ∧
    (∀ rec, lookupA sid st.userSessions = some rec → fid ∈ rec.files →
      lookupA fid (resetSession st sid newSid now).fileDatabase = none) ∧
    (lookupA filename st.disk = none → downloadFinish st filename fid = st) := by
  refine ⟨?_, ?_, ?_⟩
  · intro hexp
    unfold fileSweepStep
    rw [if_pos hexp]
    cases hs : (fid, md).2.sessionId with
    | none =>
      simp only [hs]
      exact lookupA_eraseA_self _ _
    | some sid2 =>
      simp only [hs]
      by_cases hp : (lookupA sid2 st.userSessions).isSome = true
      · rw [if_pos hp]
        exact lookupA_eraseA_self _ _
      · rw [if_neg hp]
        exact lookupA_eraseA_self _ _
  · intro rec hrec hmem
    unfold resetSession
    rw [hrec]
    exact resetFold_mem_none rec.files st fid hmem
  · intro hnone
    unfold downloadFinish
    rw [hnone]
    rfl

theorem claim_removal_paths_witness :
    (101 > demoRecordK.expiryTime ∧
      lookupA "kk" (fileSweepStep 101 demoStC8 ("kk", demoRecordK)).fileDatabase = none) ∧
    (lookupA "A" demoStC8.userSessions = some ⟨0, ["kk"]⟩ ∧
      "kk" ∈ (⟨0, ["kk"]⟩ : SessionRecord).files ∧
      lookupA "kk" (resetSession demoStC8 "A" "B" 101).fileDatabase = none) ∧
    (lookupA (strBytes "zz") demoStC8.disk = none ∧
      downloadFinish demoStC8 (strBytes "zz") "kk" = demoStC8) :=
  ⟨⟨by decide,
    (claim_removal_paths 101 demoStC8 "kk" demoRecordK (strBytes "zz") "A" "B").1 (by decide)⟩,
   ⟨by decide, by decide,
    (claim_removal_paths 101 demoStC8 "kk" demoRecordK (strBytes "zz") "A" "B").2.1
      ⟨0, ["kk"]⟩ (by decide) (by decide)⟩,
   ⟨by decide,
    (claim_removal_paths 101 demoStC8 "kk" demoRecordK (strBytes "zz") "A" "B").2.2
      (by decide)⟩⟩

/-! ## Lemmas about the sweep cycle -/

theorem adjustA_keys {κ α : Type} [DecidableEq κ] (k : κ) (f : α → α) (l : List (κ × α)) :
    (adjustA k f l).map Prod.fst = l.map Prod.fst := by
  rw [adjustA, List.map_map]
  apply List.map_congr_left
  intro e he
  by_cases h : e.1 = k <;> simp [h, Function.comp]

theorem sessionEffect_keys (now : Nat) (e : String × FileRecord)
    (S : List (String × SessionRecord)) :
    (sessionEffect now e S).map Prod.fst = S.map Prod.fst := by
  unfold sessionEffect
  repeat' split
  all_goals first
    | rfl
    | exact adjustA_keys _ _ _

theorem fileSweepStep_sessions (now : Nat) (st : ServerState) (e : String × FileRecord) :
    (fileSweepStep now st e).userSessions = sessionEffect now e st.userSessions := by
  unfold fileSweepStep sessionEffect
  repeat' split
  all_goals rfl

theorem sessionsFold_sessions_eq (now : Nat) (entries : List (String × FileRecord))
    (st : ServerState) :
    (entries.foldl (fileSweepStep now) st).userSessions
      = entries.foldl (fun S e => sessionEffect now e S) st.userSessions := by
  induction entries generalizing st with
  | nil => rfl
  | cons e es ih =>
    rw [List.foldl_cons, List.foldl_cons, ih, fileSweepStep_sessions]

theorem sessionsFold_keys (now : Nat) (entries : List (String × FileRecord))
    (S : List (String × SessionRecord)) :
    (entries.foldl (fun S e => sessionEffect now e S) S).map Prod.fst = S.map Prod.fst := by
  induction entries generalizing S with
  | nil => rfl
  | cons e es ih => rw [List.foldl_cons, ih, sessionEffect_keys]

theorem survivesF_nil (now : Nat) (sid i : String) : survivesF now [] sid i = true := rfl

theorem survivesF_cons_skip (now : Nat) (e : String × FileRecord)
    (es : List (String × FileRecord)) (sid i : String)
    (h : ¬ now > e.2.expiryTime ∨ ¬ e.2.sessionId = some sid) :
    survivesF now (e :: es) sid i = survivesF now es sid i := by
  rcases h with h | h <;> simp [survivesF, List.all_cons, h]

theorem survivesF_cons_match (now : Nat) (e : String × FileRecord)
    (es : List (String × FileRecord)) (sid i : String)
    (hexp : now > e.2.expiryTime) (hs : e.2.sessionId = some sid) :
    survivesF now (e :: es) sid i = (decide (¬ i = e.1) && survivesF now es sid i) := by
  simp [survivesF, List.all_cons, hexp, hs]

theorem filterRec_congr (o : Option SessionRecord) (p q : String → Bool)
    (h : ∀ i, p i = q i) :
    o.map (fun rec => (⟨rec.created, rec.files.filter p⟩ : SessionRecord))
      = o.map (fun rec => (⟨rec.created, rec.files.filter q⟩ : SessionRecord)) := by
  cases o with
  | none => rfl
  | some rec =>
    simp only [Option.map_some', Option.some.injEq, SessionRecord.mk.injEq,
      eq_self_iff_true, true_and]
    exact List.filter_congr (fun i _ => h i)

theorem sessionEffect_not_expired (now : Nat) (e : String × FileRecord)
    (S : List (String × SessionRecord)) (h : ¬ now > e.2.expiryTime) :
    sessionEffect now e S = S := by
  unfold sessionEffect
  rw [if_neg h]

theorem sessionEffect_no_owner (now : Nat) (e : String × FileRecord)
    (S : List (String × SessionRecord)) (hexp : now > e.2.expiryTime)
    (hs : e.2.sessionId = none) :
    sessionEffect now e S = S := by
  unfold sessionEffect
  rw [if_pos hexp, hs]

theorem sessionEffect_owner (now : Nat) (e : String × FileRecord)
    (S : List (String × SessionRecord)) (sid2 : String)
    (hexp : now > e.2.expiryTime) (hs : e.2.sessionId = some sid2) :
    sessionEffect now e S =
      if (lookupA sid2 S).isSome then
        adjustA sid2 (fun s => ⟨s.created, s.files.filter (fun i => decide (¬ i = e.1))⟩) S
      else S := by
  unfold sessionEffect
  rw [if_pos hexp, hs]

theorem sessionsFold_lookup (now : Nat) (entries : List (String × FileRecord))
    (S : List (String × SessionRecord)) (sid : String) :
    lookupA sid (entries.foldl (fun S e => sessionEffect now e S) S)
      = (lookupA sid S).map
          (fun rec => ⟨rec.created, rec.files.filter (survivesF now entries sid)⟩) := by
  induction entries generalizing S with
  | nil =>
    simp only [List.foldl_nil]
    cases hx : lookupA sid S with
    | none => rfl
    | some rec =>
      simp only [Option.map_some']
      have hfid : rec.files.filter (survivesF now [] sid) = rec.files := by
        rw [List.filter_congr (fun i _ => survivesF_nil now sid i), List.filter_true]
      rw [hfid]
  | cons e es ih =>
    rw [List.foldl_cons, ih]
    by_cases hexp : now > e.2.expiryTime
    · cases hs : e.2.sessionId with
      | none =>
        rw [sessionEffect_no_owner now e S hexp hs]
        exact filterRec_congr _ _ _
          (fun i => (survivesF_cons_skip now e es sid i (Or.inr (by simp [hs]))).symm)
      | some sid2 =>
        rw [sessionEffect_owner now e S sid2 hexp hs]
        by_cases hsid : sid2 = sid
        · subst hsid
          by_cases hp : (lookupA sid2 S).isSome = true
          · rw [if_pos hp, lookupA_adjustA]
            simp only [if_pos rfl]
            cases hx : lookupA sid2 S with
            | none =>
              rw [hx] at hp
              simp at hp
            | some rec =>
              simp only [if_true, Option.map_some', Option.some.injEq, SessionRecord.mk.injEq,
                eq_self_iff_true, true_and]
              rw [List.filter_filter]
              apply List.filter_congr
              intro i _
              rw [survivesF_cons_match now e es sid2 i hexp hs, Bool.and_comm]
          · rw [if_neg hp]
            cases hx : lookupA sid2 S with
            | some rec =>
              rw [hx] at hp
              simp at hp
            | none => rfl
        · have hsid2 : ¬ sid = sid2 := fun hc => hsid hc.symm
          have hskip : ∀ i, survivesF now es sid i = survivesF now (e :: es) sid i :=
            fun i => (survivesF_cons_skip now e es sid i
              (Or.inr (by simp [hs, fun hc : sid2 = sid => hsid hc]))).symm
          by_cases hp : (lookupA sid2 S).isSome = true
          · rw [if_pos hp, lookupA_adjustA, if_neg hsid2]
            exact filterRec_congr _ _ _ hskip
          · rw [if_neg hp]
            exact filterRec_congr _ _ _ hskip
    · rw [sessionEffect_not_expired now e S hexp]
      exact filterRec_congr _ _ _
        (fun i => (survivesF_cons_skip now e es sid i (Or.inl hexp)).symm)

theorem lookupA_mem {κ α : Type} [DecidableEq κ] (k : κ) (v : α) (l : List (κ × α))
    (h : lookupA k l = some v) : (k, v) ∈ l := by
  induction l with
  | nil => simp [lookupA] at h
  | cons e t ih =>
    obtain ⟨e1, e2⟩ := e
    by_cases he : e1 = k
    · rw [lookupA, if_pos he] at h
      have hv : e2 = v := Option.some.inj h
      subst he
      subst hv
      exact List.mem_cons_self _ _
    · rw [lookupA, if_neg he] at h
      exact List.mem_cons_of_mem _ (ih h)

theorem lookupA_none_of_key_not_mem {κ α : Type} [DecidableEq κ] (k : κ) (l : List (κ × α))
    (h : k ∉ l.map Prod.fst) : lookupA k l = none := by
  induction l with
  | nil => rfl
  | cons e t ih =>
    rw [List.map_cons, List.mem_cons] at h
    push_neg at h
    rw [lookupA, if_neg (fun hc => h.1 hc.symm)]
    exact ih h.2

theorem keys_filter_sub {κ α : Type} (p : κ × α → Bool) (l : List (κ × α)) (x : κ)
    (h : x ∈ (l.filter p).map Prod.fst) : x ∈ l.map Prod.fst := by
  rw [List.mem_map] at h ⊢
  obtain ⟨a, ha, rfl⟩ := h
  exact ⟨a, (List.mem_filter.mp ha).1, rfl⟩

theorem lookupA_filter_nodup (S : List (String × SessionRecord))
    (p : String × SessionRecord → Bool) (sid : String) (v : SessionRecord)
    (hnd : (S.map Prod.fst).Nodup) (h : lookupA sid S = some v) :
    lookupA sid (S.filter p) = if p (sid, v) = true then some v else none := by
  induction S with
  | nil => simp [lookupA] at h
  | cons e t ih =>
    rw [List.map_cons, List.nodup_cons] at hnd
    by_cases he : e.1 = sid
    · rw [lookupA, if_pos he] at h
      have hv : e.2 = v := Option.some.inj h
      have hnotin : sid ∉ t.map Prod.fst := he ▸ hnd.1
      have htnone : lookupA sid (t.filter p) = none :=
        lookupA_none_of_key_not_mem _ _ (fun hc => hnotin (keys_filter_sub p t sid hc))
      have hpe : p e = p (sid, v) := by
        obtain ⟨e1, e2⟩ := e
        cases he
        cases hv
        rfl
      rw [List.filter_cons]
      by_cases hp : p e = true
      · rw [if_pos hp, lookupA, if_pos he, hv, if_pos (hpe ▸ hp)]
      · rw [if_neg hp, htnone, if_neg (fun hc => hp (hpe ▸ hc))]
    · rw [lookupA, if_neg he] at h
      rw [List.filter_cons]
      by_cases hp : p e = true
      · rw [if_pos hp, lookupA, if_neg he]
        exact ih hnd.2 h
      · rw [if_neg hp]
        exact ih hnd.2 h

theorem lookupA_eraseA_keeps_none {κ α : Type} [DecidableEq κ] (k fid : κ) (l : List (κ × α))
    (h : lookupA fid l = none) : lookupA fid (eraseA k l) = none := by
  by_cases hf : fid = k
  · subst hf
    exact lookupA_eraseA_self _ _
  · rw [lookupA_eraseA_ne _ _ _ hf]
    exact h

theorem fileSweepStep_db_keeps_none (now : Nat) (st : ServerState) (e : String × FileRecord)
    (fid : String) (h : lookupA fid st.fileDatabase = none) :
    lookupA fid (fileSweepStep now st e).fileDatabase = none := by
  unfold fileSweepStep
  by_cases hexp : now > e.2.expiryTime
  · rw [if_pos hexp]
    cases hs : e.2.sessionId with
    | none =>
      simp only [hs]
      exact lookupA_eraseA_keeps_none _ _ _ h
    | some sid2 =>
      simp only [hs]
      by_cases hp : (lookupA sid2 st.userSessions).isSome = true
      · rw [if_pos hp]
        exact lookupA_eraseA_keeps_none _ _ _ h
      · rw [if_neg hp]
        exact lookupA_eraseA_keeps_none _ _ _ h
  · rw [if_neg hexp]
    exact h

theorem fileSweepStep_db_self (now : Nat) (st : ServerState) (fid : String) (md : FileRecord)
    (hexp : now > md.expiryTime) :
    lookupA fid (fileSweepStep now st (fid, md)).fileDatabase = none := by
  unfold fileSweepStep
  rw [if_pos hexp]
  cases hs : (fid, md).2.sessionId with
  | none =>
    simp only [hs]
    exact lookupA_eraseA_self _ _
  | some sid2 =>
    simp only [hs]
    by_cases hp : (lookupA sid2 st.userSessions).isSome = true
    · rw [if_pos hp]
      exact lookupA_eraseA_self _ _
    · rw [if_neg hp]
      exact lookupA_eraseA_self _ _

theorem sweepFold_db_keeps_none (now : Nat) (entries : List (String × FileRecord))
    (st : ServerState) (fid : String) (h : lookupA fid st.fileDatabase = none) :
    lookupA fid (entries.foldl (fileSweepStep now) st).fileDatabase = none := by
  induction entries generalizing st with
  | nil => exact h
  | cons e es ih => exact ih _ (fileSweepStep_db_keeps_none now st e fid h)

theorem sweepFold_db_none (now : Nat) (entries : List (String × FileRecord))
    (st : ServerState) (fid : String) (md : FileRecord)
    (hmem : (fid, md) ∈ entries) (hexp : now > md.expiryTime) :
    lookupA fid (entries.foldl (fileSweepStep now) st).fileDatabase = none := by
  induction entries generalizing st with
  | nil => cases hmem
  | cons e es ih =>
    rcases List.mem_cons.mp hmem with heq | hmem2
    · rw [List.foldl_cons, ← heq]
      exact sweepFold_db_keeps_none now es _ fid (fileSweepStep_db_self now st fid md hexp)
    · exact ih _ hmem2

/-- C9: within every sweep cycle the file sweep runs entirely before the
session sweep; a session is removed exactly when, after the file sweep of
the same cycle, its age exceeds 24 hours and its file list is empty; a
session whose files all expire in this cycle and whose age already exceeds
24 hours is removed in the same cycle; and the file sweep removes every
expired record (session keys assumed distinct, as JS object keys are). -/
theorem claim_sweep_order (now : Nat) (st : ServerState) (sid : String)
    (hnd : (st.userSessions.map Prod.fst).Nodup) :
    sweep now st = sessionSweep now (fileSweep now st) ∧
    (∀ rec, lookupA sid (fileSweep now st).userSessions = some rec →
      (lookupA sid (sweep now st).userSessions = none ↔
        now - rec.created > SESSION_STALE ∧ rec.files = [])) ∧
    (∀ rec, lookupA sid st.userSessions = some rec →
      now - rec.created > SESSION_STALE →
      (∀ fid ∈ rec.files, ∃ md, lookupA fid st.fileDatabase = some md ∧
        md.sessionId = some sid ∧ now > md.expiryTime) →
      lookupA sid (sweep now st).userSessions = none) ∧
    (∀ fid md, lookupA fid st.fileDatabase = some md → now > md.expiryTime →
      lookupA fid (sweep now st).fileDatabase = none) := by
  have hkeys : ((fileSweep now st).userSessions.map Prod.fst).Nodup := by
    unfold fileSweep
    rw [sessionsFold_sessions_eq, sessionsFold_keys]
    exact hnd
  have hchar : ∀ rec, lookupA sid (fileSweep now st).userSessions = some rec →
      lookupA sid (sweep now st).userSessions
        = if (decide (¬ (now - rec.created > SESSION_STALE ∧ rec.files.length = 0))) = true
          then some rec else none := by
    intro rec hrec
    exact lookupA_filter_nodup _ _ _ _ hkeys hrec
  refine ⟨rfl, ?_, ?_, ?_⟩
  · intro rec hrec
    rw [hchar rec hrec]
    by_cases hc : now - rec.created > SESSION_STALE ∧ rec.files.length = 0
    · rw [if_neg (by simp [hc])]
      simp [hc.1, List.length_eq_zero.mp hc.2]
    · rw [if_pos (by simp only [decide_eq_true_eq]; exact hc)]
      constructor
      · intro hne
        simp at hne
      · intro hcc
        exact absurd ⟨hcc.1, by rw [hcc.2]; rfl⟩ hc
  · intro rec hrec hstale hall
    have hlook : lookupA sid (fileSweep now st).userSessions
        = some ⟨rec.created, rec.files.filter (survivesF now st.fileDatabase sid)⟩ := by
      unfold fileSweep
      rw [sessionsFold_sessions_eq, sessionsFold_lookup, hrec]
      rfl
    have hempt : rec.files.filter (survivesF now st.fileDatabase sid) = [] := by
      rw [List.filter_eq_nil_iff]
      intro fid hfid
      obtain ⟨md, hmd, hsid, hexp⟩ := hall fid hfid
      have hmem := lookupA_mem fid md st.fileDatabase hmd
      rw [survivesF]
      rw [List.all_eq_false.mpr ⟨(fid, md), hmem, by simp [hexp, hsid]⟩]
      simp
    rw [hempt] at hlook
    rw [hchar _ hlook]
    rw [if_neg (by simp [hstale])]
  · intro fid md hmd hexp
    show lookupA fid (fileSweep now st).fileDatabase = none
    exact sweepFold_db_none now st.fileDatabase st fid md (lookupA_mem fid md _ hmd) hexp

theorem claim_sweep_order_witness :
    ((demoStC9.userSessions.map Prod.fst).Nodup) ∧
    (sweep 86400001 demoStC9 = sessionSweep 86400001 (fileSweep 86400001 demoStC9) ∧
      (∀ rec, lookupA "A" (fileSweep 86400001 demoStC9).userSessions = some rec →
        (lookupA "A" (sweep 86400001 demoStC9).userSessions = none ↔
          86400001 - rec.created > SESSION_STALE ∧ rec.files = [])) ∧
      (∀ rec, lookupA "A" demoStC9.userSessions = some rec →
        86400001 - rec.created > SESSION_STALE →
        (∀ fid ∈ rec.files, ∃ md, lookupA fid demoStC9.fileDatabase = some md ∧
          md.sessionId = some "A" ∧ 86400001 > md.expiryTime) →
        lookupA "A" (sweep 86400001 demoStC9).userSessions = none) ∧
      (∀ fid md, lookupA fid demoStC9.fileDatabase = some md → 86400001 > md.expiryTime →
        lookupA fid (sweep 86400001 demoStC9).fileDatabase = none)) :=
  ⟨by decide, claim_sweep_order 86400001 demoStC9 "A" (by decide)⟩

/-! ## The reachability invariant -/

theorem mem_keys_isSome {κ α : Type} [DecidableEq κ] (k : κ) (l : List (κ × α))
    (h : k ∈ l.map Prod.fst) : (lookupA k l).isSome = true := by
  induction l with
  | nil => simp at h
  | cons e t ih =>
    rw [List.map_cons, List.mem_cons] at h
    rw [lookupA]
    by_cases he : e.1 = k
    · rw [if_pos he]
      rfl
    · rw [if_neg he]
      rcases h with h | h
      · exact absurd h.symm he
      · exact ih h

theorem not_mem_keys_of_lookupA_none {κ α : Type} [DecidableEq κ] (k : κ) (l : List (κ × α))
    (h : lookupA k l = none) : k ∉ l.map Prod.fst := by
  intro hmem
  have := mem_keys_isSome k l hmem
  rw [h] at this
  simp at this

theorem putA_keys_of_absent {κ α : Type} [DecidableEq κ] (k : κ) (v : α) (l : List (κ × α))
    (h : lookupA k l = none) : (putA k v l).map Prod.fst = l.map Prod.fst ++ [k] := by
  induction l with
  | nil => rfl
  | cons e t ih =>
    rw [lookupA] at h
    by_cases he : e.1 = k
    · rw [if_pos he] at h
      cases h
    · rw [if_neg he] at h
      rw [putA, if_neg he, List.map_cons, List.map_cons, ih h, List.cons_append]

theorem nodup_putA_of_absent {κ α : Type} [DecidableEq κ] (k : κ) (v : α) (l : List (κ × α))
    (h : lookupA k l = none) (hnd : (l.map Prod.fst).Nodup) :
    ((putA k v l).map Prod.fst).Nodup := by
  rw [putA_keys_of_absent k v l h]
  have hk : k ∉ l.map Prod.fst := not_mem_keys_of_lookupA_none k l h
  simp [List.nodup_append, hnd, hk]

theorem nodup_eraseA_keys {κ α : Type} [DecidableEq κ] (k : κ) (l : List (κ × α))
    (hnd : (l.map Prod.fst).Nodup) : ((eraseA k l).map Prod.fst).Nodup :=
  hnd.sublist (List.Sublist.map Prod.fst (List.filter_sublist l))

theorem nodup_filter_keys (p : String × SessionRecord → Bool)
    (l : List (String × SessionRecord))
    (hnd : (l.map Prod.fst).Nodup) : ((l.filter p).map Prod.fst).Nodup :=
  hnd.sublist (List.Sublist.map Prod.fst (List.filter_sublist l))

theorem lookupA_filter_some_nodup (p : String × SessionRecord → Bool)
    (l : List (String × SessionRecord)) (k : String) (v : SessionRecord)
    (hnd : (l.map Prod.fst).Nodup) (h : lookupA k (l.filter p) = some v) :
    lookupA k l = some v := by
  induction l with
  | nil => simp [lookupA] at h
  | cons e t ih =>
    rw [List.map_cons, List.nodup_cons] at hnd
    rw [List.filter_cons] at h
    by_cases hp : p e = true
    · rw [if_pos hp, lookupA] at h
      rw [lookupA]
      by_cases he : e.1 = k
      · rw [if_pos he] at h ⊢
        exact h
      · rw [if_neg he] at h ⊢
        exact ih hnd.2 h
    · rw [if_neg hp] at h
      rw [lookupA]
      by_cases he : e.1 = k
      · exfalso
        have hkt : k ∉ t.map Prod.fst := he ▸ hnd.1
        have : lookupA k (t.filter p) = none :=
          lookupA_none_of_key_not_mem _ _ (fun hc => hkt (keys_filter_sub p t k hc))
        rw [this] at h
        cases h
      · rw [if_neg he]
        exact ih hnd.2 h

theorem resetFileStep_sessions (acc : ServerState) (f : String) :
    (resetFileStep acc f).userSessions = acc.userSessions := by
  unfold resetFileStep
  cases lookupA f acc.fileDatabase <;> rfl

theorem resetFold_sessions (files : List String) (acc : ServerState) :
    (files.foldl resetFileStep acc).userSessions = acc.userSessions := by
  induction files generalizing acc with
  | nil => rfl
  | cons f fs ih => rw [List.foldl_cons, ih, resetFileStep_sessions]

theorem resetFileStep_db_mono (acc : ServerState) (f fid : String) (md : FileRecord)
    (h : lookupA fid (resetFileStep acc f).fileDatabase = some md) :
    lookupA fid acc.fileDatabase = some md := by
  unfold resetFileStep at h
  cases hx : lookupA f acc.fileDatabase with
  | none =>
    rw [hx] at h
    exact h
  | some md2 =>
    rw [hx] at h
    show lookupA fid acc.fileDatabase = some md
    by_cases hf : fid = f
    · subst hf
      rw [lookupA_eraseA_self] at h
      cases h
    · rw [lookupA_eraseA_ne _ _ _ hf] at h
      exact h

theorem resetFold_db_mono (files : List String) (acc : ServerState) (fid : String)
    (md : FileRecord)
    (h : lookupA fid (files.foldl resetFileStep acc).fileDatabase = some md) :
    lookupA fid acc.fileDatabase = some md := by
  induction files generalizing acc with
  | nil => exact h
  | cons f fs ih => exact resetFileStep_db_mono acc f fid md (ih _ h)

theorem uploadHandler_state (st : ServerState) (ct : Option (List Char)) (body : List Nat)
    (sid fid : String) (now : Nat) :
    (uploadHandler st ct body sid fid now).2 = st ∨
    ∃ name content, (uploadHandler st ct body sid fid now).2
      = uploadApply st sid fid name content now := by
  unfold uploadHandler
  repeat' split
  all_goals first
    | exact Or.inl rfl
    | exact Or.inr ⟨_, _, rfl⟩

theorem downloadRequest_state (st : ServerState) (filename : List Nat) (fid : String) :
    (downloadRequest st filename fid).2 = st ∨
    (downloadRequest st filename fid).2
      = { st with
            fileDatabase := adjustA fid (fun r => { r with downloaded := true })
              st.fileDatabase } := by
  unfold downloadRequest
  repeat' split
  all_goals first
    | exact Or.inl rfl
    | exact Or.inr rfl

theorem downloadFinish_no_disk (st : ServerState) (filename : List Nat) (fid : String)
    (h : lookupA filename st.disk = none) : downloadFinish st filename fid = st := by
  unfold downloadFinish
  rw [h]
  rfl

theorem downloadFinish_eq_nodb (s : ServerState) (filename : List Nat) (fid : String)
    (h1 : (lookupA filename s.disk).isSome = true)
    (h2 : lookupA fid s.fileDatabase = none) :
    downloadFinish s filename fid = { s with disk := eraseA filename s.disk } := by
  unfold downloadFinish
  simp only [h1, if_true]
  have h2' : lookupA fid ({ s with disk := eraseA filename s.disk } : ServerState).fileDatabase
      = none := h2
  rw [h2']

theorem goodState_emptySessionPut (st : ServerState) (sid : String) (now : Nat)
    (hfresh : lookupA sid st.userSessions = none) (hg : GoodState st) :
    GoodState { st with userSessions := putA sid ⟨now, []⟩ st.userSessions } := by
  obtain ⟨hnd, hinv⟩ := hg
  refine ⟨nodup_putA_of_absent sid _ _ hfresh hnd, ?_⟩
  intro sid' srec' hs' fid' hfid' md hmd
  simp only [] at hs' hmd
  by_cases hss : sid' = sid
  · subst hss
    rw [lookupA_putA_self] at hs'
    have : srec' = ⟨now, []⟩ := (Option.some.inj hs').symm
    rw [this] at hfid'
    cases hfid'
  · rw [lookupA_putA_ne _ _ _ _ hss] at hs'
    exact hinv sid' srec' hs' fid' hfid' md hmd

theorem goodState_uploadApply (st : ServerState) (sid fid : String)
    (name content : List Nat) (now : Nat)
    (hdb : lookupA fid st.fileDatabase = none)
    (hnotowned : ∀ s ∈ st.userSessions, fid ∉ s.2.files)
    (hg : GoodState st) :
    GoodState (uploadApply st sid fid name content now) := by
  obtain ⟨hnd, hinv⟩ := hg
  constructor
  · simp only [uploadApply]
    rw [adjustA_keys]
    exact hnd
  · intro sid' srec' hs' fid' hfid' md hmd
    simp only [uploadApply] at hs' hmd
    rw [lookupA_adjustA] at hs'
    by_cases hss : sid' = sid
    · rw [if_pos hss] at hs'
      cases hx : lookupA sid' st.userSessions with
      | none =>
        rw [hx] at hs'
        cases hs'
      | some srec =>
        rw [hx] at hs'
        have hsr : srec' = ⟨srec.created, srec.files ++ [fid]⟩ := (Option.some.inj hs').symm
        rw [hsr] at hfid'
        by_cases hf : fid' = fid
        · subst hf
          rw [lookupA_putA_self] at hmd
          have : md = ⟨name, storageFilename fid' name, content.length, now,
              now + FILE_EXPIRY, false, some sid⟩ := (Option.some.inj hmd).symm
          rw [this, hss]
        · rw [lookupA_putA_ne _ _ _ _ hf] at hmd
          have hfid2 : fid' ∈ srec.files := by
            rcases List.mem_append.mp hfid' with h2 | h2
            · exact h2
            · simp at h2
              exact absurd h2 hf
          exact hinv sid' srec hx fid' hfid2 md hmd
    · rw [if_neg hss] at hs'
      have hfne : fid' ≠ fid := by
        intro hc
        subst hc
        exact hnotowned (sid', srec') (lookupA_mem _ _ _ hs') hfid'
      rw [lookupA_putA_ne _ _ _ _ hfne] at hmd
      exact hinv sid' srec' hs' fid' hfid' md hmd

theorem goodState_adjustDownloaded (st : ServerState) (fid : String) (hg : GoodState st) :
    GoodState { st with
        fileDatabase := adjustA fid (fun r => { r with downloaded := true })
          st.fileDatabase } := by
  obtain ⟨hnd, hinv⟩ := hg
  refine ⟨hnd, ?_⟩
  intro sid' srec' hs' fid' hfid' md hmd
  simp only [] at hs' hmd
  rw [lookupA_adjustA] at hmd
  by_cases hf : fid' = fid
  · rw [if_pos hf] at hmd
    cases hx : lookupA fid' st.fileDatabase with
    | none =>
      rw [hx] at hmd
      cases hmd
    | some md0 =>
      rw [hx] at hmd
      have : md = { md0 with downloaded := true } := (Option.some.inj hmd).symm
      rw [this]
      exact hinv sid' srec' hs' fid' hfid' md0 hx
  · rw [if_neg hf] at hmd
    exact hinv sid' srec' hs' fid' hfid' md hmd

theorem goodState_downloadFinish (st : ServerState) (filename : List Nat) (fid : String)
    (hg : GoodState st) : GoodState (downloadFinish st filename fid) := by
  obtain ⟨hnd, hinv⟩ := hg
  cases hd : lookupA filename st.disk with
  | none =>
    rw [downloadFinish_no_disk st filename fid hd]
    exact ⟨hnd, hinv⟩
  | some bytes =>
    have hd' : (lookupA filename st.disk).isSome = true := by rw [hd]; rfl
    cases hx : lookupA fid st.fileDatabase with
    | none =>
      rw [downloadFinish_eq_nodb st filename fid hd' hx]
      exact ⟨hnd, hinv⟩
    | some md2 =>
      rw [downloadFinish_eq st filename fid md2 hd' hx]
      constructor
      · cases hs : md2.sessionId with
        | none =>
          simp only [hs]
          exact hnd
        | some sidO =>
          simp only [hs]
          by_cases hp : (lookupA sidO st.userSessions).isSome = true
          · rw [if_pos hp]
            show ((adjustA sidO _ st.userSessions).map Prod.fst).Nodup
            rw [adjustA_keys]
            exact hnd
          · rw [if_neg hp]
            exact hnd
      · intro sid' srec' hs' fid' hfid' md hmd
        simp only [] at hs' hmd
        by_cases hf : fid' = fid
        · subst hf
          rw [lookupA_eraseA_self] at hmd
          cases hmd
        · rw [lookupA_eraseA_ne _ _ _ hf] at hmd
          cases hsOwner : md2.sessionId with
          | none =>
            simp only [hsOwner] at hs'
            exact hinv sid' srec' hs' fid' hfid' md hmd
          | some sidO =>
            simp only [hsOwner] at hs'
            by_cases hp : (lookupA sidO st.userSessions).isSome = true
            · rw [if_pos hp, lookupA_adjustA] at hs'
              by_cases hss : sid' = sidO
              · rw [if_pos hss] at hs'
                cases hx2 : lookupA sid' st.userSessions with
                | none =>
                  rw [hx2] at hs'
                  cases hs'
                | some srec =>
                  rw [hx2] at hs'
                  have := (Option.some.inj hs').symm
                  rw [this] at hfid'
                  exact hinv sid' srec hx2 fid' (List.mem_filter.mp hfid').1 md hmd
              · rw [if_neg hss] at hs'
                exact hinv sid' srec' hs' fid' hfid' md hmd
            · rw [if_neg hp] at hs'
              exact hinv sid' srec' hs' fid' hfid' md hmd

theorem goodState_reset (st : ServerState) (sid newSid : String) (now : Nat)
    (hfresh : lookupA newSid st.userSessions = none) (hg : GoodState st) :
    GoodState (resetSession st sid newSid now) := by
  obtain ⟨hnd, hinv⟩ := hg
  unfold resetSession
  cases hx : lookupA sid st.userSessions with
  | none => exact goodState_emptySessionPut st newSid now hfresh ⟨hnd, hinv⟩
  | some rec =>
    simp only [hx]
    constructor
    · show ((putA newSid ⟨now, []⟩
          (eraseA sid ((rec.files.foldl resetFileStep st).userSessions))).map Prod.fst).Nodup
      apply nodup_putA_of_absent
      · rw [resetFold_sessions]
        exact lookupA_eraseA_keeps_none _ _ _ hfresh
      · rw [resetFold_sessions]
        exact nodup_eraseA_keys _ _ hnd
    · intro sid' srec' hs' fid' hfid' md hmd
      simp only [] at hs' hmd
      rw [resetFold_sessions] at hs'
      have hmd2 : lookupA fid' st.fileDatabase = some md := resetFold_db_mono _ _ _ _ hmd
      by_cases hss : sid' = newSid
      · subst hss
        rw [lookupA_putA_self] at hs'
        have : srec' = ⟨now, []⟩ := (Option.some.inj hs').symm
        rw [this] at hfid'
        cases hfid'
      · rw [lookupA_putA_ne _ _ _ _ hss] at hs'
        by_cases hsid : sid' = sid
        · subst hsid
          rw [lookupA_eraseA_self] at hs'
          cases hs'
        · rw [lookupA_eraseA_ne _ _ _ hsid] at hs'
          exact hinv sid' srec' hs' fid' hfid' md hmd2

theorem goodState_fileSweepStep (now : Nat) (acc : ServerState) (e : String × FileRecord)
    (hg : GoodState acc) : GoodState (fileSweepStep now acc e) := by
  obtain ⟨hnd, hinv⟩ := hg
  unfold fileSweepStep
  by_cases hexp : now > e.2.expiryTime
  · rw [if_pos hexp]
    have hDb : ∀ fid' md, lookupA fid' (eraseA e.1 acc.fileDatabase) = some md →
        lookupA fid' acc.fileDatabase = some md := by
      intro fid' md hmd
      by_cases hf : fid' = e.1
      · subst hf
        rw [lookupA_eraseA_self] at hmd
        cases hmd
      · rw [lookupA_eraseA_ne _ _ _ hf] at hmd
        exact hmd
    cases hs : e.2.sessionId with
    | none =>
      simp only [hs]
      refine ⟨hnd, ?_⟩
      intro sid' srec' hs' fid' hfid' md hmd
      simp only [] at hs' hmd
      exact hinv sid' srec' hs' fid' hfid' md (hDb fid' md hmd)
    | some sidO =>
      simp only [hs]
      by_cases hp : (lookupA sidO acc.userSessions).isSome = true
      · rw [if_pos hp]
        constructor
        · show ((adjustA sidO
              (fun s => ⟨s.created, s.files.filter (fun i => decide (¬ i = e.1))⟩)
              acc.userSessions).map Prod.fst).Nodup
          rw [adjustA_keys]
          exact hnd
        · intro sid' srec' hs' fid' hfid' md hmd
          simp only [] at hs' hmd
          rw [lookupA_adjustA] at hs'
          by_cases hss : sid' = sidO
          · rw [if_pos hss] at hs'
            cases hx : lookupA sid' acc.userSessions with
            | none =>
              rw [hx] at hs'
              cases hs'
            | some srec =>
              rw [hx] at hs'
              have := (Option.some.inj hs').symm
              rw [this] at hfid'
              exact hinv sid' srec hx fid' (List.mem_filter.mp hfid').1 md (hDb fid' md hmd)
          · rw [if_neg hss] at hs'
            exact hinv sid' srec' hs' fid' hfid' md (hDb fid' md hmd)
      · rw [if_neg hp]
        refine ⟨hnd, ?_⟩
        intro sid' srec' hs' fid' hfid' md hmd
        simp only [] at hs' hmd
        exact hinv sid' srec' hs' fid' hfid' md (hDb fid' md hmd)
  · rw [if_neg hexp]
    exact ⟨hnd, hinv⟩

theorem goodState_fileSweepFold (now : Nat) (entries : List (String × FileRecord))
    (acc : ServerState) (hg : GoodState acc) :
    GoodState (entries.foldl (fileSweepStep now) acc) := by
  induction entries generalizing acc with
  | nil => exact hg
  | cons e es ih => exact ih _ (goodState_fileSweepStep now acc e hg)

theorem goodState_sessionSweep (now : Nat) (st : ServerState) (hg : GoodState st) :
    GoodState (sessionSweep now st) := by
  obtain ⟨hnd, hinv⟩ := hg
  refine ⟨nodup_filter_keys _ _ hnd, ?_⟩
  intro sid' srec' hs' fid' hfid' md hmd
  simp only [sessionSweep] at hs' hmd
  exact hinv sid' srec' (lookupA_filter_some_nodup _ _ _ _ hnd hs') fid' hfid' md hmd

theorem goodState_step (st st2 : ServerState) (h : Step st st2) (hg : GoodState st) :
    GoodState st2 := by
  cases h with
  | createSession sid now hfresh =>
    exact goodState_emptySessionPut st sid now hfresh hg
  | upload ct body sid fid now hsess hdb hnotowned =>
    rcases uploadHandler_state st ct body sid fid now with heq | ⟨name, content, heq⟩
    · rw [heq]
      exact hg
    · rw [heq]
      exact goodState_uploadApply st sid fid name content now hdb hnotowned hg
  | download filename fid =>
    rcases downloadRequest_state st filename fid with heq | heq
    · rw [heq]
      exact hg
    · rw [heq]
      exact goodState_adjustDownloaded st fid hg
  | finish filename fid => exact goodState_downloadFinish st filename fid hg
  | reset sid newSid now hfresh => exact goodState_reset st sid newSid now hfresh hg
  | sweepCycle now =>
    exact goodState_sessionSweep now _ (goodState_fileSweepFold now st.fileDatabase st hg)

theorem reachable_goodState (st : ServerState) (h : Reachable st) : GoodState st := by
  induction h with
  | init =>
    constructor
    · exact List.nodup_nil
    · intro sid srec hs
      cases hs
  | step st st2 h1 h2 ih => exact goodState_step st st2 h2 ih

/-- C3: session isolation.  In every reachable state (with the generated
IDs modelled as fresh per the collision-resistance assumption of the
specification), every entry of the file listing served to session A refers
to a record whose owning session is A — hence the listing contains no file
uploaded under any other session B. -/
theorem claim_session_isolation (st : ServerState) (A B : String)
    (hreach : Reachable st) (hAB : ¬ A = B) :
    ∀ e ∈ apiFiles st A, ∃ md, lookupA e.id st.fileDatabase = some md ∧
      md.sessionId = some A ∧ ¬ md.sessionId = some B := by
  intro e he
  obtain ⟨hnd, hinv⟩ := reachable_goodState st hreach
  unfold apiFiles at he
  cases hx : lookupA A st.userSessions with
  | none =>
    simp only [hx] at he
    cases he
  | some rec =>
    simp only [hx] at he
    rw [List.mem_filterMap] at he
    obtain ⟨fid, hfid, hmap⟩ := he
    cases hmd : lookupA fid st.fileDatabase with
    | none =>
      rw [hmd] at hmap
      cases hmap
    | some md =>
      rw [hmd] at hmap
      simp only [Option.map_some', Option.some.injEq] at hmap
      have heid : e.id = fid := by
        rw [← hmap]
      have hsid := hinv A rec hx fid hfid md hmd
      refine ⟨md, ?_, hsid, ?_⟩
      · rw [heid]
        exact hmd
      · rw [hsid]
        intro hc
        exact hAB (Option.some.inj hc)

theorem claim_session_isolation_witness :
    (Reachable demoReach ∧ ¬ "A" = "B") ∧
    (∀ e ∈ apiFiles demoReach "A", ∃ md, lookupA e.id demoReach.fileDatabase = some md ∧
      md.sessionId = some "A" ∧ ¬ md.sessionId = some "B") := by
  have hr : Reachable demoReach :=
    Reachable.step _ _ (Reachable.step _ _ (Reachable.step _ _ Reachable.init
      (Step.createSession ⟨[], [], []⟩ "A" 0 (by decide)))
      (Step.createSession _ "B" 0 (by decide)))
      (Step.upload _ (some demoCt) demoBody "A" "F" 7 (by decide) (by decide) (by decide))
  exact ⟨⟨hr, by decide⟩, claim_session_isolation demoReach "A" "B" hr (by decide)⟩

/-! ## Flag-equivalence congruence lemmas -/

theorem recCore_fields (r r2 : FileRecord) (h : recCore r = recCore r2) :
    r.originalName = r2.originalName ∧ r.filename = r2.filename ∧ r.size = r2.size ∧
    r.uploadTime = r2.uploadTime ∧ r.expiryTime = r2.expiryTime ∧
    r.sessionId = r2.sessionId := by
  simp only [recCore, Prod.mk.injEq] at h
  exact h

theorem recCore_setDownloaded (r : FileRecord) :
    recCore { r with downloaded := true } = recCore r := rfl

theorem eqDb_refl (l : List (String × FileRecord)) : EqDb l l := by
  induction l with
  | nil => trivial
  | cons a as ih => exact ⟨rfl, rfl, ih⟩

theorem lookupA_eqDb (d d2 : List (String × FileRecord)) (h : EqDb d d2) (k : String) :
    (lookupA k d = none ∧ lookupA k d2 = none) ∨
    (∃ r r2, lookupA k d = some r ∧ lookupA k d2 = some r2 ∧ recCore r = recCore r2) := by
  induction d generalizing d2 with
  | nil =>
    cases d2 with
    | nil => exact Or.inl ⟨rfl, rfl⟩
    | cons b bs => cases h
  | cons a as ih =>
    cases d2 with
    | nil => cases h
    | cons b bs =>
      obtain ⟨hk, hc, ht⟩ := h
      by_cases he : a.1 = k
      · refine Or.inr ⟨a.2, b.2, ?_, ?_, hc⟩
        · rw [lookupA, if_pos he]
        · rw [lookupA, if_pos (hk ▸ he)]
      · have he2 : ¬ b.1 = k := hk ▸ he
        rw [show lookupA k (a :: as) = lookupA k as from by rw [lookupA, if_neg he],
          show lookupA k (b :: bs) = lookupA k bs from by rw [lookupA, if_neg he2]] at *
        exact ih bs ht

theorem eqDb_putA (d d2 : List (String × FileRecord)) (h : EqDb d d2) (k : String)
    (r r2 : FileRecord) (hr : recCore r = recCore r2) :
    EqDb (putA k r d) (putA k r2 d2) := by
  induction d generalizing d2 with
  | nil =>
    cases d2 with
    | nil => exact ⟨rfl, hr, trivial⟩
    | cons b bs => cases h
  | cons a as ih =>
    cases d2 with
    | nil => cases h
    | cons b bs =>
      obtain ⟨hk, hc, ht⟩ := h
      by_cases he : a.1 = k
      · rw [putA, if_pos he, putA, if_pos (hk ▸ he)]
        exact ⟨rfl, hr, ht⟩
      · rw [putA, if_neg he, putA, if_neg (hk ▸ he)]
        exact ⟨hk, hc, ih bs ht⟩

theorem eqDb_eraseA (d d2 : List (String × FileRecord)) (h : EqDb d d2) (k : String) :
    EqDb (eraseA k d) (eraseA k d2) := by
  induction d generalizing d2 with
  | nil =>
    cases d2 with
    | nil => trivial
    | cons b bs => cases h
  | cons a as ih =>
    cases d2 with
    | nil => cases h
    | cons b bs =>
      obtain ⟨hk, hc, ht⟩ := h
      rw [eraseA, List.filter_cons, eraseA, List.filter_cons]
      by_cases he : a.1 = k
      · simp only [he, hk ▸ he, decide_True, Bool.not_true, Bool.false_eq_true, if_false]
        exact ih bs ht
      · simp only [he, hk ▸ he, decide_False, Bool.not_false, if_true]
        exact ⟨hk, hc, ih bs ht⟩

theorem eqDb_adjustDownloaded (d d2 : List (String × FileRecord)) (h : EqDb d d2)
    (k : String) :
    EqDb (adjustA k (fun r => { r with downloaded := true }) d)
      (adjustA k (fun r => { r with downloaded := true }) d2) := by
  induction d generalizing d2 with
  | nil =>
    cases d2 with
    | nil => trivial
    | cons b bs => cases h
  | cons a as ih =>
    cases d2 with
    | nil => cases h
    | cons b bs =>
      obtain ⟨hk, hc, ht⟩ := h
      rw [adjustA, List.map_cons, adjustA, List.map_cons]
      by_cases he : a.1 = k
      · rw [if_pos he, if_pos (hk ▸ he)]
        exact ⟨hk, by rw [recCore_setDownloaded, recCore_setDownloaded]; exact hc, ih bs ht⟩
      · rw [if_neg he, if_neg (hk ▸ he)]
        exact ⟨hk, hc, ih bs ht⟩

theorem filterMap_ext {α β : Type} (f g : α → Option β) (l : List α)
    (h : ∀ a ∈ l, f a = g a) : l.filterMap f = l.filterMap g := by
  induction l with
  | nil => rfl
  | cons a as ih =>
    rw [List.filterMap_cons, List.filterMap_cons, h a (by simp)]
    cases g a <;> rw [ih (fun x hx => h x (by simp [hx]))]

theorem eqSt_uploadApply (s t : ServerState) (h : EqSt s t) (sid fid : String)
    (name content : List Nat) (now : Nat) :
    EqSt (uploadApply s sid fid name content now) (uploadApply t sid fid name content now) := by
  obtain ⟨hdb, hsess, hdisk⟩ := h
  refine ⟨?_, ?_, ?_⟩
  · exact eqDb_putA _ _ hdb fid _ _ rfl
  · simp only [uploadApply]
    rw [hsess]
  · simp only [uploadApply]
    rw [hdisk]

theorem uploadHandler_agree (s t : ServerState) (h : EqSt s t)
    (ct : Option (List Char)) (body : List Nat) (sid fid : String) (now : Nat) :
    (uploadHandler s ct body sid fid now).1 = (uploadHandler t ct body sid fid now).1 ∧
    EqSt (uploadHandler s ct body sid fid now).2 (uploadHandler t ct body sid fid now).2 := by
  unfold uploadHandler
  repeat' split
  all_goals
    first
      | exact ⟨rfl, h⟩
      | exact ⟨rfl, eqSt_uploadApply s t h sid fid _ _ now⟩

theorem apiFiles_agree (s t : ServerState) (h : EqSt s t) (sid : String) :
    apiFiles s sid = apiFiles t sid := by
  obtain ⟨hdb, hsess, hdisk⟩ := h
  unfold apiFiles
  rw [← hsess]
  cases lookupA sid s.userSessions with
  | none => rfl
  | some rec =>
    apply filterMap_ext
    intro fid _
    rcases lookupA_eqDb _ _ hdb fid with ⟨h1, h2⟩ | ⟨r, r2, h1, h2, hc⟩
    · rw [h1, h2]
    · rw [h1, h2]
      obtain ⟨ho, hf, hz, hu, he, _⟩ := recCore_fields r r2 hc
      simp only [Option.map_some']
      rw [ho, hf, hz, hu, he]

theorem downloadRequest_agree (s t : ServerState) (h : EqSt s t)
    (filename : List Nat) (fid : String) :
    (downloadRequest s filename fid).1 = (downloadRequest t filename fid).1 ∧
    EqSt (downloadRequest s filename fid).2 (downloadRequest t filename fid).2 := by
  obtain ⟨hdb, hsess, hdisk⟩ := h
  unfold downloadRequest
  rw [← hdisk]
  cases lookupA filename s.disk with
  | none =>
    rcases lookupA_eqDb _ _ hdb fid with ⟨h1, h2⟩ | ⟨r, r2, h1, h2, hc⟩ <;>
      rw [h1, h2] <;> exact ⟨rfl, hdb, hsess, hdisk⟩
  | some bytes =>
    rcases lookupA_eqDb _ _ hdb fid with ⟨h1, h2⟩ | ⟨r, r2, h1, h2, hc⟩
    · rw [h1, h2]
      exact ⟨rfl, hdb, hsess, hdisk⟩
    · rw [h1, h2]
      obtain ⟨ho, _, _, _, _, _⟩ := recCore_fields r r2 hc
      exact ⟨congrArg (fun x => DownloadResp.stream x (getContentType filename) bytes) ho,
        eqDb_adjustDownloaded _ _ hdb fid, hsess, rfl⟩

theorem downloadFinish_agree (s t : ServerState) (h : EqSt s t)
    (filename : List Nat) (fid : String) :
    EqSt (downloadFinish s filename fid) (downloadFinish t filename fid) := by
  obtain ⟨hdb, hsess, hdisk⟩ := h
  cases hd : lookupA filename s.disk with
  | none =>
    rw [downloadFinish_no_disk s filename fid hd,
      downloadFinish_no_disk t filename fid (hdisk ▸ hd)]
    exact ⟨hdb, hsess, hdisk⟩
  | some bytes =>
    have hds : (lookupA filename s.disk).isSome = true := by rw [hd]; rfl
    have hdt : (lookupA filename t.disk).isSome = true := by rw [← hdisk, hd]; rfl
    rcases lookupA_eqDb _ _ hdb fid with ⟨h1, h2⟩ | ⟨r, r2, h1, h2, hc⟩
    · rw [downloadFinish_eq_nodb s filename fid hds h1,
        downloadFinish_eq_nodb t filename fid hdt h2]
      refine ⟨hdb, hsess, ?_⟩
      simp only []
      rw [hdisk]
    · rw [downloadFinish_eq s filename fid r hds h1,
        downloadFinish_eq t filename fid r2 hdt h2]
      obtain ⟨_, _, _, _, _, hsid⟩ := recCore_fields r r2 hc
      refine ⟨eqDb_eraseA _ _ hdb fid, ?_, by simp only []; rw [hdisk]⟩
      simp only []
      rw [← hsid, ← hsess]

theorem eqSt_resetFileStep (a b : ServerState) (h : EqSt a b) (f : String) :
    EqSt (resetFileStep a f) (resetFileStep b f) := by
  obtain ⟨hdb, hsess, hdisk⟩ := h
  unfold resetFileStep
  rcases lookupA_eqDb _ _ hdb f with ⟨h1, h2⟩ | ⟨r, r2, h1, h2, hc⟩
  · rw [h1, h2]
    exact ⟨hdb, hsess, hdisk⟩
  · rw [h1, h2]
    obtain ⟨_, hf, _, _, _, _⟩ := recCore_fields r r2 hc
    exact ⟨eqDb_eraseA _ _ hdb f, hsess, by simp only []; rw [hf, hdisk]⟩

theorem eqSt_resetFold (files : List String) (a b : ServerState) (h : EqSt a b) :
    EqSt (files.foldl resetFileStep a) (files.foldl resetFileStep b) := by
  induction files generalizing a b with
  | nil => exact h
  | cons f fs ih => exact ih _ _ (eqSt_resetFileStep a b h f)

theorem resetSession_agree (s t : ServerState) (h : EqSt s t) (sid newSid : String)
    (now : Nat) :
    EqSt (resetSession s sid newSid now) (resetSession t sid newSid now) := by
  obtain ⟨hdb, hsess, hdisk⟩ := h
  unfold resetSession
  rw [← hsess]
  cases lookupA sid s.userSessions with
  | none =>
    refine ⟨hdb, ?_, hdisk⟩
    simp only []
  | some rec =>
    have hfold := eqSt_resetFold rec.files s t ⟨hdb, hsess, hdisk⟩
    obtain ⟨hdb2, hsess2, hdisk2⟩ := hfold
    exact ⟨hdb2, by simp only []; rw [hsess2], hdisk2⟩

theorem eqSt_fileSweepStep (now : Nat) (a b : ServerState) (h : EqSt a b)
    (e1 e2 : String × FileRecord) (hk : e1.1 = e2.1) (hc : recCore e1.2 = recCore e2.2) :
    EqSt (fileSweepStep now a e1) (fileSweepStep now b e2) := by
  obtain ⟨hdb, hsess, hdisk⟩ := h
  obtain ⟨_, hf, _, _, hexp, hsid⟩ := recCore_fields e1.2 e2.2 hc
  unfold fileSweepStep
  rw [← hexp, ← hsid, ← hk, ← hsess, ← hf]
  repeat' split
  all_goals
    first
      | exact ⟨hdb, hsess, hdisk⟩
      | exact ⟨eqDb_eraseA _ _ hdb _, rfl, by rw [hdisk]⟩

theorem eqSt_fileSweepFold (now : Nat) (entries1 entries2 : List (String × FileRecord))
    (hE : EqDb entries1 entries2) (a b : ServerState) (h : EqSt a b) :
    EqSt (entries1.foldl (fileSweepStep now) a) (entries2.foldl (fileSweepStep now) b) := by
  induction entries1 generalizing entries2 a b with
  | nil =>
    cases entries2 with
    | nil => exact h
    | cons e2 es2 => cases hE
  | cons e1 es1 ih =>
    cases entries2 with
    | nil => cases hE
    | cons e2 es2 =>
      obtain ⟨hk, hc, ht⟩ := hE
      exact ih es2 ht _ _ (eqSt_fileSweepStep now a b h e1 e2 hk hc)

theorem sweep_agree (s t : ServerState) (h : EqSt s t) (now : Nat) :
    EqSt (sweep now s) (sweep now t) := by
  have hfold := eqSt_fileSweepFold now s.fileDatabase t.fileDatabase h.1 s t h
  obtain ⟨hdb2, hsess2, hdisk2⟩ := hfold
  unfold sweep fileSweep sessionSweep
  exact ⟨hdb2, by simp only []; rw [hsess2], hdisk2⟩

theorem claim_first_qualifying_part_witness :
    ((∀ p ∈ [demoPart0], extractFromPart p = none) ∧
      extractFromPart demoPart1 = some (strBytes "y", strBytes "P1")) ∧
    ((∀ p, idxOf? headerEndMarker p = none → extractFromPart p = none) ∧
      scanParts ([demoPart0] ++ demoPart1 :: []) = ⟨some (strBytes "y"), some (strBytes "P1")⟩) :=
  ⟨⟨by decide, by decide⟩,
   claim_first_qualifying_part [demoPart0] [] demoPart1 (strBytes "y") (strBytes "P1")
     (by decide) (by decide)⟩

/-- C10: the FileRecord `downloaded` flag is write-only. An upload stores the
new record with the flag false, a successful download request sets the
honored record's flag to true, and no operation reads the flag: for two
states that agree on everything except the `downloaded` flags of their
records, every operation (upload, file listing, download request, download
finish, session reset, sweep) returns the same response and successor states
that again agree up to the flags. -/
theorem claim_downloaded_flag_write_only (s t : ServerState) (h : EqSt s t) :
    OpsAgree s t ∧
    (∀ sid fid name content now,
      lookupA fid (uploadApply s sid fid name content now).fileDatabase =
        some ⟨name, storageFilename fid name, content.length, now, now + FILE_EXPIRY,
          false, some sid⟩) ∧
    (∀ filename fid bytes md,
      lookupA filename s.disk = some bytes →
      lookupA fid s.fileDatabase = some md →
      lookupA fid (downloadRequest s filename fid).2.fileDatabase =
        some { md with downloaded := true }) := by
  refine ⟨⟨?_, ?_, ?_, ?_, ?_, ?_⟩, ?_, ?_⟩
  · exact fun ct body sid fid now => uploadHandler_agree s t h ct body sid fid now
  · exact fun sid => apiFiles_agree s t h sid
  · exact fun filename fid => downloadRequest_agree s t h filename fid
  · exact fun filename fid => downloadFinish_agree s t h filename fid
  · exact fun sid newSid now => resetSession_agree s t h sid newSid now
  · exact fun now => sweep_agree s t h now
  · intro sid fid name content now
    simp only [uploadApply]
    exact lookupA_putA_self fid _ s.fileDatabase
  · intro filename fid bytes md hdisk2 hdb2
    unfold downloadRequest
    rw [hdisk2, hdb2]
    show lookupA fid (adjustA fid (fun r => { r with downloaded := true }) s.fileDatabase) =
      some { md with downloaded := true }
    rw [lookupA_adjustA fid fid (fun r => { r with downloaded := true }) s.fileDatabase,
      if_pos rfl, hdb2, Option.map_some']

theorem claim_downloaded_flag_write_only_witness :
    EqSt demoStC2 demoStC10 ∧
    (OpsAgree demoStC2 demoStC10 ∧
     (∀ sid fid name content now,
       lookupA fid (uploadApply demoStC2 sid fid name content now).fileDatabase =
         some ⟨name, storageFilename fid name, content.length, now, now + FILE_EXPIRY,
           false, some sid⟩) ∧
     (∀ filename fid bytes md,
       lookupA filename demoStC2.disk = some bytes →
       lookupA fid demoStC2.fileDatabase = some md →
       lookupA fid (downloadRequest demoStC2 filename fid).2.fileDatabase =
         some { md with downloaded := true })) :=
  ⟨⟨⟨rfl, rfl, trivial⟩, rfl, rfl⟩,
   claim_downloaded_flag_write_only demoStC2 demoStC10 ⟨⟨rfl, rfl, trivial⟩, rfl, rfl⟩⟩

end OpenShare
